import Mathlib

/-!
# Verification of the dcos-launch CLI dispatch layer

A shallow embedding of `dcos_launch/cli.py`: the JSON value model used for
the Cluster Info handle, the canonical serializer corresponding to
`json.dump(data, f, sort_keys=True, indent=2, separators=(',', ':'))`, a
model of `json.load`'s parser, and the command dispatch (`do_main`/`main`)
with its external collaborators (config validation, launcher construction,
the process environment) supplied as parameters.

Python values that can appear in a Cluster Info document are modelled by
`JVal`: strings, arbitrary-precision integers, booleans, null, lists and
dicts.  Python floats are outside the model (floating-point formatting is
not representable here); dicts are modelled as association lists in
insertion order, as in Python 3.7+.
-/

set_option maxHeartbeats 1000000

namespace DcosCli

/-- A Python value of the shapes supported by the Cluster Info document:
`None`, `bool`, `int`, `str`, `list`, `dict` (with string keys, kept in
insertion order like a Python 3.7+ dict).  Python `float` is outside the
model. -/
inductive JVal where
  | jnull : JVal
  | jbool (b : Bool) : JVal
  | jnum (n : Int) : JVal
  | jstr (s : List Char) : JVal
  | jarr (xs : List JVal) : JVal
  | jobj (kvs : List (List Char × JVal)) : JVal

mutual
/-- Node count of a value, used as a fuel bound for the parser. -/
def jsize : JVal → Nat
  | .jnull => 1
  | .jbool _ => 1
  | .jnum _ => 1
  | .jstr _ => 1
  | .jarr xs => 1 + jsizeL xs
  | .jobj kvs => 1 + jsizeKV kvs

/-- Node count of a list of values. -/
def jsizeL : List JVal → Nat
  | [] => 0
  | x :: xs => 1 + jsize x + jsizeL xs

/-- Node count of an entry list. -/
def jsizeKV : List (List Char × JVal) → Nat
  | [] => 0
  | p :: ps => 1 + jsize p.2 + jsizeKV ps
end

/-- Code-point lexicographic string order, as used by Python's `str`
comparison (and hence by `sorted(dct.items())` on distinct keys). -/
def strLe : List Char → List Char → Bool
  | [], _ => true
  | _ :: _, [] => false
  | a :: as, b :: bs =>
    if a.toNat < b.toNat then true
    else if b.toNat < a.toNat then false
    else strLe as bs

/-- Key order on dict entries: compare keys with `strLe`.  `sorted` on
`dict.items()` compares the `(key, value)` tuples, but in a Python dict the
keys are distinct, so the value components are never compared. -/
def entryLe (p q : List Char × JVal) : Prop := strLe p.1 q.1 = true

instance : DecidableRel entryLe := fun p q => by unfold entryLe; infer_instance

/-- The sorted entry list that `sort_keys=True` serializes
(a stable sort by key, like Python's `sorted`). -/
def sortEntries (l : List (List Char × JVal)) : List (List Char × JVal) :=
  List.insertionSort entryLe l

mutual
/-- Canonical form of a value: every dict's entries recursively key-sorted.
Two values are equal as Python values (`==`, which ignores dict entry
order) exactly when their canonical forms coincide. -/
def canon : JVal → JVal
  | .jnull => .jnull
  | .jbool b => .jbool b
  | .jnum n => .jnum n
  | .jstr s => .jstr s
  | .jarr xs => .jarr (canonL xs)
  | .jobj kvs => .jobj (sortEntries (canonKV kvs))

/-- `canon` mapped over a list. -/
def canonL : List JVal → List JVal
  | [] => []
  | x :: xs => canon x :: canonL xs

/-- `canon` mapped over the values of an entry list. -/
def canonKV : List (List Char × JVal) → List (List Char × JVal)
  | [] => []
  | p :: ps => (p.1, canon p.2) :: canonKV ps
end

/-- Logical equality of two in-memory representations: Python `==` on the
modelled values (dict entry order is irrelevant, everything else is
compared structurally). -/
def pyEq (a b : JVal) : Prop := canon a = canon b

/-! ## Serializer

Models `json.dumps(data, sort_keys=True, indent=2, separators=(',', ':'))`
from CPython's `json.encoder` with `ensure_ascii=True`: after `'{'`/`'['`
and after every `','` item separator comes a newline and two spaces per
nesting level; the key separator is `':'` with no trailing space; dict
entries are emitted in key-sorted order; non-ASCII and control characters
are `\uXXXX`-escaped (with surrogate pairs above U+FFFF). -/

/-- Decimal digit character. -/
def digitChar (d : Nat) : Char := Char.ofNat (48 + d)

/-- Decimal representation of a natural number, as produced by Python's
`int.__repr__` (no leading zeros; `"0"` for zero). -/
def natRepr (n : Nat) : List Char :=
  if _h : n < 10 then [digitChar n]
  else natRepr (n / 10) ++ [digitChar (n % 10)]
  decreasing_by exact Nat.div_lt_self (by omega) (by omega)

/-- Decimal representation of an integer. -/
def intRepr (n : Int) : List Char :=
  if n < 0 then '-' :: natRepr (-n).toNat else natRepr n.toNat

/-- Lowercase hexadecimal digit character, as in `'{0:04x}'.format(n)`. -/
def hexDigitChar (d : Nat) : Char :=
  if d < 10 then Char.ofNat (48 + d) else Char.ofNat (87 + d)

/-- Four lowercase hex digits of `n < 0x10000`. -/
def hex4 (n : Nat) : List Char :=
  [hexDigitChar (n / 4096 % 16), hexDigitChar (n / 256 % 16),
   hexDigitChar (n / 16 % 16), hexDigitChar (n % 16)]

/-- Escape of one character, as in CPython's
`py_encode_basestring_ascii`: `"` and `\` get a backslash escape; other
printable ASCII (U+0020..U+007E) is emitted literally; `\b \t \n \f \r`
use their short escapes; every other code point below U+10000 becomes
`\uXXXX`; code points above become a UTF-16 surrogate pair
`\uXXXX\uXXXX`. -/
def escapeChar (c : Char) : List Char :=
  if c = '"' then ['\\', '"']
  else if c = '\\' then ['\\', '\\']
  else if 32 ≤ c.toNat ∧ c.toNat ≤ 126 then [c]
  else if c.toNat = 8 then ['\\', 'b']
  else if c.toNat = 9 then ['\\', 't']
  else if c.toNat = 10 then ['\\', 'n']
  else if c.toNat = 12 then ['\\', 'f']
  else if c.toNat = 13 then ['\\', 'r']
  else if c.toNat < 65536 then '\\' :: 'u' :: hex4 c.toNat
  else '\\' :: 'u' :: hex4 (55296 + (c.toNat - 65536) / 1024) ++
       '\\' :: 'u' :: hex4 (56320 + (c.toNat - 65536) % 1024)

/-- Escaped body of a JSON string literal. -/
def escapeStr : List Char → List Char
  | [] => []
  | c :: cs => escapeChar c ++ escapeStr cs

/-- Newline followed by the indentation of nesting level `d`
(`indent=2`, so two spaces per level). -/
def nlind (d : Nat) : List Char := '\n' :: List.replicate (2 * d) ' '

/-- Rendered form of one dict member whose value is already rendered:
quoted escaped key, `':'` with no trailing space, value. -/
def renderMember (m : List Char × List Char) : List Char :=
  '"' :: escapeStr m.1 ++ '"' :: ':' :: m.2

/-- Remaining members of a non-empty object: item separator `','`,
newline+indent, member — for each entry. -/
def assembleObjRest (d : Nat) : List (List Char × List Char) → List Char
  | [] => []
  | m :: ms => ',' :: (nlind (d + 1) ++ renderMember m ++ assembleObjRest d ms)

/-- Assemble a serialized object from its key-sorted rendered members. -/
def assembleObj (d : Nat) (ms : List (List Char × List Char)) : List Char :=
  match ms with
  | [] => ['{', '}']
  | m :: rest =>
    '{' :: (nlind (d + 1) ++ renderMember m ++ assembleObjRest d rest ++ nlind d ++ ['}'])

/-- Key order on rendered members (value already serialized). -/
def renderedLe (p q : List Char × List Char) : Prop := strLe p.1 q.1 = true

instance : DecidableRel renderedLe := fun p q => by unfold renderedLe; infer_instance

mutual
/-- Serialization of one value at nesting depth `d`, per
`json.dumps(·, sort_keys=True, indent=2, separators=(',', ':'))`.

For objects, CPython sorts `dct.items()` and then renders each entry; here
the entries are rendered first and the rendered members sorted by key,
which yields the same list because rendering keeps keys fixed and the sort
is a stable key sort (`insertionSort_renderKVs` below proves the
commutation with `sortEntries`). -/
def serVal (d : Nat) : JVal → List Char
  | .jnull => ['n', 'u', 'l', 'l']
  | .jbool b => if b then ['t', 'r', 'u', 'e'] else ['f', 'a', 'l', 's', 'e']
  | .jnum n => intRepr n
  | .jstr s => '"' :: (escapeStr s ++ ['"'])
  | .jarr [] => ['[', ']']
  | .jarr (x :: rest) =>
    '[' :: (nlind (d + 1) ++ serVal (d + 1) x ++ serList (d + 1) rest ++ nlind d ++ [']'])
  | .jobj kvs => assembleObj d (List.insertionSort renderedLe (renderKVs (d + 1) kvs))

/-- Remaining elements of a non-empty array: `','`, newline+indent,
element — for each. -/
def serList (d : Nat) : List JVal → List Char
  | [] => []
  | x :: xs => ',' :: (nlind d ++ serVal d x ++ serList d xs)

/-- Each entry with its value rendered at depth `d` (keys unchanged). -/
def renderKVs (d : Nat) : List (List Char × JVal) → List (List Char × List Char)
  | [] => []
  | p :: ps => (p.1, serVal d p.2) :: renderKVs d ps
end

/-- Serialized document, as written by `write_json` / returned by
`json_prettyprint` (top level is depth 0). -/
def dumps (v : JVal) : List Char := serVal 0 v

/-! ## Parser

Models `json.loads` (CPython's C scanner): whitespace `' '`, `'\t'`,
`'\n'`, `'\r'` is skipped around tokens; values are dispatched on their
first character; numbers follow `-?(0|[1-9][0-9]*)` with ASCII digits.
Deviations, all unreachable from this serializer's output: inputs that
would parse as Python floats (fraction or exponent part), the literals
`NaN`/`Infinity`/`-Infinity`, and `\uXXXX` escapes encoding lone UTF-16
surrogates (representable in a Python `str` but not in `Char`) are
rejected with `none` instead. -/

/-- JSON whitespace. -/
def isWs (c : Char) : Bool := c = ' ' || c = '\t' || c = '\n' || c = '\r'

/-- Skip leading whitespace. -/
def skipWs : List Char → List Char
  | [] => []
  | c :: cs => if isWs c then skipWs cs else c :: cs

/-- ASCII decimal digit test. -/
def isDigitCh (c : Char) : Bool := decide (48 ≤ c.toNat ∧ c.toNat ≤ 57)

/-- Greedily consume decimal digits, accumulating their value. -/
def parseDigits (acc : Nat) : List Char → Nat × List Char
  | [] => (acc, [])
  | c :: cs =>
    if isDigitCh c then parseDigits (acc * 10 + (c.toNat - 48)) cs
    else (acc, c :: cs)

/-- Parse an unsigned integer per the JSON grammar `0|[1-9][0-9]*`
(a leading `'0'` is the whole number). -/
def parseUNum : List Char → Option (Nat × List Char)
  | [] => none
  | c :: cs =>
    if c = '0' then some (0, cs)
    else if isDigitCh c then some (parseDigits (c.toNat - 48) cs)
    else none

/-- Would the number regex continue into a fraction or exponent part
(`(\.[0-9]+)?([eE][-+]?[0-9]+)?`) here?  If so the Python value is a
float, which is outside the model. -/
def floatCont : List Char → Bool
  | '.' :: d :: _ => isDigitCh d
  | 'e' :: '+' :: d :: _ => isDigitCh d
  | 'e' :: '-' :: d :: _ => isDigitCh d
  | 'e' :: d :: _ => isDigitCh d
  | 'E' :: '+' :: d :: _ => isDigitCh d
  | 'E' :: '-' :: d :: _ => isDigitCh d
  | 'E' :: d :: _ => isDigitCh d
  | _ => false

/-- A trailing context that cannot extend a just-parsed number token:
empty, or starting with a character that is neither a digit nor `.`,
`e`, `E`.  Every position following a number in the serializer's output
(`,`, `\n`, `}`, `]`, end of input) satisfies this. -/
def restOk (rest : List Char) : Prop :=
  match rest with
  | [] => True
  | c :: _ => isDigitCh c = false ∧ c ≠ '.' ∧ c ≠ 'e' ∧ c ≠ 'E'

/-- Parse a JSON number (integer case; floats rejected, see above). -/
def parseNum (s : List Char) : Option (Int × List Char) :=
  match s with
  | [] => none
  | c :: cs =>
    if c = '-' then
      match parseUNum cs with
      | none => none
      | some (n, r) => if floatCont r then none else some (-(n : Int), r)
    else
      match parseUNum (c :: cs) with
      | none => none
      | some (n, r) => if floatCont r then none else some ((n : Int), r)

/-- Value of one hex digit (both cases accepted, as in `\uXXXX`). -/
def hexVal (c : Char) : Option Nat :=
  if 48 ≤ c.toNat ∧ c.toNat ≤ 57 then some (c.toNat - 48)
  else if 97 ≤ c.toNat ∧ c.toNat ≤ 102 then some (c.toNat - 87)
  else if 65 ≤ c.toNat ∧ c.toNat ≤ 70 then some (c.toNat - 55)
  else none

/-- Value of a four-hex-digit group. -/
def hexVal4 (h1 h2 h3 h4 : Char) : Option Nat :=
  match hexVal h1, hexVal h2, hexVal h3, hexVal h4 with
  | some d1, some d2, some d3, some d4 => some (((d1 * 16 + d2) * 16 + d3) * 16 + d4)
  | _, _, _, _ => none

/-- Short backslash escapes of the string grammar. -/
def simpleEsc (e : Char) : Option Char :=
  if e = '"' then some '"'
  else if e = '\\' then some '\\'
  else if e = '/' then some '/'
  else if e = 'b' then some (Char.ofNat 8)
  else if e = 'f' then some (Char.ofNat 12)
  else if e = 'n' then some (Char.ofNat 10)
  else if e = 'r' then some (Char.ofNat 13)
  else if e = 't' then some (Char.ofNat 9)
  else none

mutual
/-- Parse a string body after the opening quote, per CPython's
`scanstring` in strict mode: literal control characters are rejected,
`\uXXXX` escapes are decoded, adjacent high+low surrogate escapes are
combined into one code point.  The scanstring loop is factored into four
functions by scanner state: plain character (`parseStr`), after a
backslash (`parseStrEsc`), after `\u` (`parseStrU`), and expecting the
low half of a surrogate pair (`parseStrLow`). -/
def parseStr : List Char → Option (List Char × List Char)
  | [] => none
  | c :: cs =>
    if c = '"' then some ([], cs)
    else if c = '\\' then parseStrEsc cs
    else if c.toNat < 32 then none
    else
      match parseStr cs with
      | none => none
      | some (t, r) => some (c :: t, r)

/-- Continuation after a backslash. -/
def parseStrEsc : List Char → Option (List Char × List Char)
  | [] => none
  | e :: cs2 =>
    if e = 'u' then parseStrU cs2
    else
      match simpleEsc e with
      | none => none
      | some c2 =>
        match parseStr cs2 with
        | none => none
        | some (t, r) => some (c2 :: t, r)

/-- Continuation after `\u`: four hex digits, then possibly the low half
of a surrogate pair. -/
def parseStrU : List Char → Option (List Char × List Char)
  | h1 :: h2 :: h3 :: h4 :: r =>
    match hexVal4 h1 h2 h3 h4 with
    | none => none
    | some n =>
      if n < 55296 ∨ 57344 ≤ n then
        match parseStr r with
        | none => none
        | some (t, r2) => some (Char.ofNat n :: t, r2)
      else if n < 56320 then parseStrLow n r
      else none
  | _ => none

/-- Continuation after a high surrogate `\uXXXX` (value `n`): a `\u`
escape with a low surrogate value combines into one code point. -/
def parseStrLow (n : Nat) : List Char → Option (List Char × List Char)
  | b1 :: b2 :: g1 :: g2 :: g3 :: g4 :: r2 =>
    if b1 = '\\' ∧ b2 = 'u' then
      match hexVal4 g1 g2 g3 g4 with
      | none => none
      | some m =>
        if 56320 ≤ m ∧ m < 57344 then
          match parseStr r2 with
          | none => none
          | some (t, r3) =>
            some (Char.ofNat (65536 + (n - 55296) * 1024 + (m - 56320)) :: t, r3)
        else none
    else none
  | _ => none
end

/-- Repackage a parsed string as a value. -/
def jstrResult : Option (List Char × List Char) → Option (JVal × List Char)
  | none => none
  | some (t, r) => some (.jstr t, r)

/-- Repackage a parsed number as a value. -/
def jnumResult : Option (Int × List Char) → Option (JVal × List Char)
  | none => none
  | some (n, r) => some (.jnum n, r)

/-- The `null` literal after its initial `'n'`. -/
def parseLitNull : List Char → Option (JVal × List Char)
  | c1 :: c2 :: c3 :: r =>
    if c1 = 'u' ∧ c2 = 'l' ∧ c3 = 'l' then some (.jnull, r) else none
  | _ => none

/-- The `true` literal after its initial `'t'`. -/
def parseLitTrue : List Char → Option (JVal × List Char)
  | c1 :: c2 :: c3 :: r =>
    if c1 = 'r' ∧ c2 = 'u' ∧ c3 = 'e' then some (.jbool true, r) else none
  | _ => none

/-- The `false` literal after its initial `'f'`. -/
def parseLitFalse : List Char → Option (JVal × List Char)
  | c1 :: c2 :: c3 :: c4 :: r =>
    if c1 = 'a' ∧ c2 = 'l' ∧ c3 = 's' ∧ c4 = 'e' then some (.jbool false, r) else none
  | _ => none

mutual
/-- Parse one JSON value (dispatch on the first character, as in the C
scanner); `fuel` bounds the nesting recursion.  The object and array
bodies are the separate functions `parseObjBody`/`parseArrBody`, applied
after the opening brace/bracket and whitespace. -/
def parseVal : Nat → List Char → Option (JVal × List Char)
  | 0, _ => none
  | f + 1, s =>
    match s with
    | [] => none
    | c :: cs =>
      if c = '"' then jstrResult (parseStr cs)
      else if c = '{' then parseObjBody f (skipWs cs)
      else if c = '[' then parseArrBody f (skipWs cs)
      else if c = 'n' then parseLitNull cs
      else if c = 't' then parseLitTrue cs
      else if c = 'f' then parseLitFalse cs
      else if c = '-' ∨ isDigitCh c then jnumResult (parseNum (c :: cs))
      else none

/-- Object contents after `'{'` and whitespace: `'}'` or the first
member followed by the member loop. -/
def parseObjBody : Nat → List Char → Option (JVal × List Char)
  | 0, _ => none
  | _ + 1, [] => none
  | f + 1, c2 :: r =>
    if c2 = '}' then some (.jobj [], r)
    else
      match parseMember f (c2 :: r) with
      | none => none
      | some (m, r2) =>
        match parseMembers f r2 with
        | none => none
        | some (ms, r3) => some (.jobj (m :: ms), r3)

/-- Array contents after `'['` and whitespace: `']'` or the first
element followed by the element loop. -/
def parseArrBody : Nat → List Char → Option (JVal × List Char)
  | 0, _ => none
  | _ + 1, [] => none
  | f + 1, c2 :: r =>
    if c2 = ']' then some (.jarr [], r)
    else
      match parseVal f (c2 :: r) with
      | none => none
      | some (v, r2) =>
        match parseElems f r2 with
        | none => none
        | some (vs, r3) => some (.jarr (v :: vs), r3)

/-- Parse one `"key": value` member (the cursor is on the `'"'`). -/
def parseMember : Nat → List Char → Option ((List Char × JVal) × List Char)
  | 0, _ => none
  | f + 1, s =>
    match s with
    | [] => none
    | c :: cs =>
      if c = '"' then
        match parseStr cs with
        | none => none
        | some (k, r) =>
          match skipWs r with
          | [] => none
          | c2 :: r2 =>
            if c2 = ':' then
              match parseVal f (skipWs r2) with
              | none => none
              | some (v, r3) => some ((k, v), r3)
            else none
      else none

/-- After a member: `'}'` closes the object, `','` continues with the
next member. -/
def parseMembers : Nat → List Char → Option (List (List Char × JVal) × List Char)
  | 0, _ => none
  | f + 1, s =>
    match skipWs s with
    | [] => none
    | c :: r =>
      if c = '}' then some ([], r)
      else if c = ',' then
        match parseMember f (skipWs r) with
        | none => none
        | some (m, r2) =>
          match parseMembers f r2 with
          | none => none
          | some (ms, r3) => some (m :: ms, r3)
      else none

/-- After an element: `']'` closes the array, `','` continues with the
next element. -/
def parseElems : Nat → List Char → Option (List JVal × List Char)
  | 0, _ => none
  | f + 1, s =>
    match skipWs s with
    | [] => none
    | c :: r =>
      if c = ']' then some ([], r)
      else if c = ',' then
        match parseVal f (skipWs r) with
        | none => none
        | some (v, r2) =>
          match parseElems f r2 with
          | none => none
          | some (vs, r3) => some (v :: vs, r3)
      else none
end

/-- `json.loads`: skip surrounding whitespace, parse one value, and
require that nothing but whitespace follows ("Extra data" otherwise).
The fuel only bounds the recursion depth; `3 * (s.length + 1)` never
runs out on serializer output (`parseVal_serVal` and the size bound
below), matching the real parser, whose recursion is bounded by the
input's nesting depth. -/
def loads (s : List Char) : Option JVal :=
  match parseVal (3 * (s.length + 1)) (skipWs s) with
  | none => none
  | some (v, rest) => if skipWs rest = [] then some v else none

/-! ## The CLI layer (`dcos_launch/cli.py`)

External collaborators — `dcos_launch.config.get_validated_config`,
`dcos_launch.get_launcher` and the constructed launcher's methods,
`os.environ`, and the diagnostic text of the underlying
`json.JSONDecodeError` — are parameters (`World`), since their code is
outside this file's scope.  Python exceptions are modelled as values of
`PyExc`; an operation either returns or raises. -/

/-- A Python exception relevant to this layer: the domain error
`dcos_launch.util.LauncherError` (with its `error` kind and `msg`), a
`ValueError`, or a `FileNotFoundError`. -/
inductive PyExc where
  | launcherError (kind : String) (msg : Option String)
  | valueError (msg : String)
  | fileNotFoundError (path : String)
deriving DecidableEq

/-- The command given on the command line (docopt guarantees exactly
one). -/
inductive Cmd where
  | create | wait | describe | pytest | delete
deriving DecidableEq

/-- Parsed command-line arguments, with docopt's defaults. -/
structure Args where
  cmd : Cmd
  configPath : String := "config.yaml"
  infoPath : String := "cluster_info.json"
  env : Option String := none
  pytestExtras : List String := []
  logLevel : String := "info"

/-- The filesystem: path to file contents (`none` when absent). -/
def Fs : Type := String → Option (List Char)

/-- A constructed launcher: each method either raises or returns.
`test` receives the passthrough arguments and the environment dict
(modelled as the association list the dict comprehension builds). -/
structure Launcher where
  create : Except PyExc JVal
  wait : Except PyExc Unit
  describe : Except PyExc JVal
  test : List String → List (String × String) → Except PyExc Int
  delete : Except PyExc Unit

/-- External behavior the CLI depends on. -/
structure World where
  /-- `dcos_launch.config.get_validated_config` -/
  getValidatedConfig : String → Except PyExc JVal
  /-- `dcos_launch.get_launcher` -/
  getLauncher : JVal → Except PyExc Launcher
  /-- `os.environ` -/
  environ : String → Option String
  /-- the `str` of the `json.JSONDecodeError` raised by `json.load` on the
  given invalid content -/
  jsonDiag : List Char → String

/-- `write_json(filename, data)`: truncating write of the canonical
serialization. -/
def write_json (fs : Fs) (filename : String) (data : JVal) : Fs :=
  fun p => if p = filename then some (dumps data) else fs p

/-- `load_json(filename)`: raises `FileNotFoundError` when the file is
absent; wraps a JSON parse failure (a `ValueError`) in a new `ValueError`
carrying the path and the original diagnostic. -/
def load_json (w : World) (fs : Fs) (filename : String) : Except PyExc JVal :=
  match fs filename with
  | none => .error (.fileNotFoundError filename)
  | some content =>
    match loads content with
    | some v => .ok v
    | none => .error (.valueError ("Invalid JSON in " ++ filename ++ ": " ++ w.jsonDiag content))

/-- Lines 83–88 of `cli.py`: load the info file (turning
`FileNotFoundError` into `LauncherError('MissingInfoJSON', None)`) and
construct the launcher from it. -/
def loadInfoLauncher (w : World) (fs : Fs) (infoPath : String) : Except PyExc Launcher :=
  match load_json w fs infoPath with
  | .error (.fileNotFoundError _) => .error (.launcherError "MissingInfoJSON" none)
  | .error e => .error e
  | .ok info => w.getLauncher info

/-- Python `'=' in s`. -/
def pyContainsEq (s : String) : Bool := s.data.any (fun c => c = '=')

/-- Python `s.split(',')` on the character list. -/
def splitCommaL : List Char → List (List Char)
  | [] => [[]]
  | c :: cs =>
    if c = ',' then [] :: splitCommaL cs
    else
      match splitCommaL cs with
      | [] => [[c]]
      | t :: ts => (c :: t) :: ts

/-- Python `s.split(',')`. -/
def pySplit (s : String) : List String :=
  (splitCommaL s.data).map (fun cs => String.mk cs)

/-- Python `repr` of one string (environment-variable names contain no
quotes, so the single-quoted form applies). -/
def reprStr (s : String) : String := "'" ++ s ++ "'"

/-- Comma-and-space separated reprs, as inside Python's list repr. -/
def reprStrListBody : List String → String
  | [] => ""
  | [s] => reprStr s
  | s :: rest => reprStr s ++ ", " ++ reprStrListBody rest

/-- Python `repr` of a list of strings, e.g. `['A', 'B']`. -/
def reprStrList (l : List String) : String := "[" ++ reprStrListBody l ++ "]"

/-- The message of the `InputConflict` error (two adjacent string
literals in the source concatenate). -/
def inputConflictMsg (infoPath : String) : String :=
  infoPath ++ " already exists! Delete this or specify a different cluster info path with the -i option"

/-- The message of the `OptionError` error. -/
def optionErrMsg : String :=
  "The '--env' option can only pass through environment variables from the current environment. Set variables according to the shell being used."

/-- The message of the `MissingInput` error, listing `repr(missing)`. -/
def missingInputMsg (missing : List String) : String :=
  "Environment variable arguments have been indicated but not set: " ++ reprStrList missing

/-- The env dict `{e: os.environ[e] for e in var_list}` (reached only
when every listed variable is present; duplicate names would collapse in
the Python dict but carry identical values, so lookups agree). -/
def buildEnvDict (varList : List String) (environ : String → Option String) :
    List (String × String) :=
  varList.map (fun e => (e, (environ e).getD ""))

/-- `do_main(args)`: dispatch on the command; returns the (exit code or
uncaught exception, resulting filesystem) pair. -/
def do_main (args : Args) (w : World) (fs : Fs) : Except PyExc Int × Fs :=
  match args.cmd with
  | .create =>
    match w.getValidatedConfig args.configPath with
    | .error e => (.error e, fs)
    | .ok config =>
      if (fs args.infoPath).isSome then
        (.error (.launcherError "InputConflict" (some (inputConflictMsg args.infoPath))), fs)
      else
        match w.getLauncher config with
        | .error e => (.error e, fs)
        | .ok launcher =>
          match launcher.create with
          | .error e => (.error e, fs)
          | .ok result => (.ok 0, write_json fs args.infoPath result)
  | .wait =>
    match loadInfoLauncher w fs args.infoPath with
    | .error e => (.error e, fs)
    | .ok launcher =>
      match launcher.wait with
      | .error e => (.error e, fs)
      | .ok _ => (.ok 0, fs)
  | .describe =>
    match loadInfoLauncher w fs args.infoPath with
    | .error e => (.error e, fs)
    | .ok launcher =>
      match launcher.describe with
      | .error e => (.error e, fs)
      | .ok _ => (.ok 0, fs)
  | .pytest =>
    match loadInfoLauncher w fs args.infoPath with
    | .error e => (.error e, fs)
    | .ok launcher =>
      match args.env with
      | none => (launcher.test args.pytestExtras (buildEnvDict [] w.environ), fs)
      | some envStr =>
        if pyContainsEq envStr then
          (.error (.launcherError "OptionError" (some optionErrMsg)), fs)
        else
          let var_list := pySplit envStr
          let missing := var_list.filter (fun v => (w.environ v).isNone)
          if 0 < missing.length then
            (.error (.launcherError "MissingInput" (some (missingInputMsg missing))), fs)
          else
            (launcher.test args.pytestExtras (buildEnvDict var_list w.environ), fs)
  | .delete =>
    match loadInfoLauncher w fs args.infoPath with
    | .error e => (.error e, fs)
    | .ok launcher =>
      match launcher.delete with
      | .error e => (.error e, fs)
      | .ok _ => (.ok 0, fs)

/-- `main`: run `do_main`, catching `LauncherError` (printed, exit code 1);
any other exception propagates as an uncontrolled crash. -/
def main (args : Args) (w : World) (fs : Fs) : Except PyExc Int × Fs :=
  match do_main args w fs with
  | (.error (.launcherError _ _), fs') => (.ok 1, fs')
  | r => r

/-- Replace every launcher's `test` method, to express that a result does
not depend on it (i.e. the test runner was never invoked). -/
def setTest (w : World) (t : List String → List (String × String) → Except PyExc Int) : World :=
  { w with getLauncher := fun j =>
      match w.getLauncher j with
      | .error e => .error e
      | .ok l => .ok { l with test := t } }

/-- Replace the environment, to express that a result does not depend on
it (i.e. no environment presence check happened). -/
def setEnviron (w : World) (env : String → Option String) : World :=
  { w with environ := env }

/-- The `--env` allowlist as parsed by the pytest branch (`var_list`):
empty when the option is omitted, else the comma-split of its value. -/
def envVarList (args : Args) : List String :=
  match args.env with
  | none => []
  | some s => pySplit s

/-- Dict lookup on the association-list model (first occurrence; in
`buildEnvDict` output duplicate keys carry identical values, matching the
Python dict). -/
def lookupD : List (String × String) → String → Option String
  | [], _ => none
  | p :: ps, x => if x = p.1 then some p.2 else lookupD ps x

/-! ### Concrete instances used by the witnesses -/

/-- A stub launcher whose every operation succeeds. -/
def sampleLauncher : Launcher :=
  { create := .ok (.jobj []), wait := .ok (), describe := .ok (.jobj []),
    test := fun _ _ => .ok 0, delete := .ok () }

/-- A concrete external world: validation and launcher construction
succeed, only `A=1` is set in the environment. -/
def sampleWorld : World :=
  { getValidatedConfig := fun _ => .ok (.jobj []),
    getLauncher := fun _ => .ok sampleLauncher,
    environ := fun v => if v = "A" then some "1" else none,
    jsonDiag := fun _ =>
      "Expecting property name enclosed in double quotes: line 1 column 2 (char 1)" }

/-- A filesystem holding a valid info file at the default path. -/
def fsWithInfo : Fs :=
  fun p => if p = "cluster_info.json" then some (dumps (.jobj [])) else none

/-- The empty filesystem. -/
def fsEmpty : Fs := fun _ => none

/-- A filesystem whose info file holds invalid JSON (`"{"`). -/
def fsBadInfo : Fs :=
  fun p => if p = "cluster_info.json" then some ['{'] else none

/-! ## Theorems about the dispatch layer -/

/-- The non-create commands never write to the filesystem: every branch
returns `fs` unchanged. -/
theorem do_main_fs_unchanged (args : Args) (w : World) (fs : Fs)
    (h : args.cmd ≠ Cmd.create) : (do_main args w fs).2 = fs := by
  unfold do_main
  cases hc : args.cmd with
  | create => exact absurd hc h
  | wait => dsimp only; (repeat' split) <;> rfl
  | describe => dsimp only; (repeat' split) <;> rfl
  | pytest => dsimp only; (repeat' split) <;> rfl
  | delete => dsimp only; (repeat' split) <;> rfl

/-- C2: `create` with an existing info-path fails with `InputConflict`
(assuming config validation, which the code runs first, succeeds) and the
existing file's contents are untouched. -/
theorem create_existing_info_conflict (args : Args) (w : World) (fs : Fs)
    (c : JVal) (content : List Char)
    (hcmd : args.cmd = Cmd.create)
    (hconf : w.getValidatedConfig args.configPath = .ok c)
    (hfile : fs args.infoPath = some content) :
    do_main args w fs =
      (.error (.launcherError "InputConflict" (some (inputConflictMsg args.infoPath))), fs) ∧
    (do_main args w fs).2 args.infoPath = some content := by
  have hmain : do_main args w fs =
      (.error (.launcherError "InputConflict" (some (inputConflictMsg args.infoPath))), fs) := by
    unfold do_main
    rw [hcmd, hconf, hfile]
    rfl
  exact ⟨hmain, by rw [hmain]; exact hfile⟩


/-- C2 witness. -/
theorem create_existing_info_conflict_witness :
    fsWithInfo "cluster_info.json" = some (dumps (.jobj [])) ∧
    do_main { cmd := Cmd.create } sampleWorld fsWithInfo =
      (.error (.launcherError "InputConflict" (some (inputConflictMsg "cluster_info.json"))),
       fsWithInfo) :=
  ⟨rfl,
    (create_existing_info_conflict { cmd := Cmd.create } sampleWorld fsWithInfo
      (.jobj []) (dumps (.jobj [])) rfl rfl rfl).1⟩

/-- C3: every non-create command on a missing info-path fails with
`MissingInfoJSON` and creates no file there. -/
theorem noncreate_missing_info_error (args : Args) (w : World) (fs : Fs)
    (hcmd : args.cmd ≠ Cmd.create)
    (hfile : fs args.infoPath = none) :
    do_main args w fs = (.error (.launcherError "MissingInfoJSON" none), fs) ∧
    (do_main args w fs).2 args.infoPath = none := by
  have hload : loadInfoLauncher w fs args.infoPath =
      .error (.launcherError "MissingInfoJSON" none) := by
    unfold loadInfoLauncher load_json
    rw [hfile]
  have hmain : do_main args w fs = (.error (.launcherError "MissingInfoJSON" none), fs) := by
    unfold do_main
    cases hc : args.cmd with
    | create => exact absurd hc hcmd
    | wait => rw [hload]
    | describe => rw [hload]
    | pytest => rw [hload]
    | delete => rw [hload]
  exact ⟨hmain, by rw [hmain]; exact hfile⟩

/-- C3 witness. -/
theorem noncreate_missing_info_error_witness :
    fsEmpty "cluster_info.json" = none ∧
    do_main { cmd := Cmd.delete } sampleWorld fsEmpty =
      (.error (.launcherError "MissingInfoJSON" none), fsEmpty) :=
  ⟨rfl,
    (noncreate_missing_info_error { cmd := Cmd.delete } sampleWorld fsEmpty
      (by simp) rfl).1⟩

/-- C9: on a loadable info file, a successful `delete` exits 0 and leaves
the filesystem — in particular the info file — untouched; moreover no
command other than `create` ever changes the filesystem. -/
theorem delete_success_leaves_info_file (args : Args) (w : World) (fs : Fs)
    (launcher : Launcher)
    (hcmd : args.cmd = Cmd.delete)
    (hl : loadInfoLauncher w fs args.infoPath = .ok launcher)
    (hdel : launcher.delete = .ok ()) :
    main args w fs = (.ok 0, fs) ∧
    (∀ a2 w2 fs2, a2.cmd ≠ Cmd.create → (do_main a2 w2 fs2).2 = fs2) := by
  have hdo : do_main args w fs = (.ok 0, fs) := by
    simp only [do_main, hcmd, hl, hdel]
  refine ⟨?_, fun a2 w2 fs2 h2 => do_main_fs_unchanged a2 w2 fs2 h2⟩
  unfold main
  rw [hdo]

/-- C9 witness. -/
theorem delete_success_leaves_info_file_witness :
    loadInfoLauncher sampleWorld fsWithInfo "cluster_info.json" = .ok sampleLauncher ∧
    main { cmd := Cmd.delete } sampleWorld fsWithInfo = (.ok 0, fsWithInfo) :=
  ⟨rfl,
    (delete_success_leaves_info_file { cmd := Cmd.delete } sampleWorld fsWithInfo
      sampleLauncher rfl rfl rfl).1⟩

/-- Changing only the environment does not change `load_json` or the
launcher construction. -/
theorem loadInfoLauncher_setEnviron (w : World) (env2 : String → Option String)
    (fs : Fs) (p : String) (launcher : Launcher)
    (hl : loadInfoLauncher w fs p = .ok launcher) :
    loadInfoLauncher (setEnviron w env2) fs p = .ok launcher := hl

/-- Replacing every launcher's `test` method leaves `loadInfoLauncher`
successful, with only the `test` field replaced. -/
theorem loadInfoLauncher_setTest (w : World)
    (t : List String → List (String × String) → Except PyExc Int)
    (fs : Fs) (p : String) (launcher : Launcher)
    (hl : loadInfoLauncher w fs p = .ok launcher) :
    loadInfoLauncher (setTest w t) fs p = .ok { launcher with test := t } := by
  unfold loadInfoLauncher at hl ⊢
  have hjd : load_json (setTest w t) fs p = load_json w fs p := rfl
  rw [hjd]
  cases hload : load_json w fs p with
  | error e =>
    rw [hload] at hl
    cases e <;> simp_all
  | ok info =>
    rw [hload] at hl
    dsimp only at hl ⊢
    unfold setTest
    dsimp only
    rw [hl]

/-- C6: a `--env` value containing `'='` makes `pytest` fail with
`OptionError`, independently of the process environment (so before — and
without — any presence check). -/
theorem pytest_env_assignment_option_error (args : Args) (w : World) (fs : Fs)
    (launcher : Launcher) (s : String)
    (hcmd : args.cmd = Cmd.pytest)
    (hl : loadInfoLauncher w fs args.infoPath = .ok launcher)
    (henv : args.env = some s)
    (heq : pyContainsEq s = true) :
    do_main args w fs = (.error (.launcherError "OptionError" (some optionErrMsg)), fs) ∧
    (∀ env2, do_main args (setEnviron w env2) fs = do_main args w fs) := by
  have hdo : ∀ w2 : World, loadInfoLauncher w2 fs args.infoPath = .ok launcher →
      do_main args w2 fs = (.error (.launcherError "OptionError" (some optionErrMsg)), fs) := by
    intro w2 hl2
    simp only [do_main, hcmd, hl2, henv, heq, if_true]
  have h1 := hdo w hl
  refine ⟨h1, fun env2 => ?_⟩
  rw [h1]
  exact hdo (setEnviron w env2) (loadInfoLauncher_setEnviron w env2 fs args.infoPath launcher hl)

/-- C6 witness. -/
theorem pytest_env_assignment_option_error_witness :
    pyContainsEq "A=1" = true ∧
    do_main { cmd := Cmd.pytest, env := some "A=1" } sampleWorld fsWithInfo =
      (.error (.launcherError "OptionError" (some optionErrMsg)), fsWithInfo) :=
  ⟨rfl,
    (pytest_env_assignment_option_error { cmd := Cmd.pytest, env := some "A=1" }
      sampleWorld fsWithInfo sampleLauncher "A=1" rfl rfl rfl rfl).1⟩

/-- C7: when some allowlisted variables are absent, `pytest` fails with
`MissingInput` whose message lists exactly the absent variables (the
filter of the allowlist by absence), and the launcher's `test` is never
invoked (the result does not depend on it). -/
theorem pytest_env_missing_input (args : Args) (w : World) (fs : Fs)
    (launcher : Launcher) (s : String)
    (hcmd : args.cmd = Cmd.pytest)
    (hl : loadInfoLauncher w fs args.infoPath = .ok launcher)
    (henv : args.env = some s)
    (hne : pyContainsEq s = false)
    (hmiss : (pySplit s).filter (fun v => (w.environ v).isNone) ≠ []) :
    do_main args w fs =
      (.error (.launcherError "MissingInput"
        (some (missingInputMsg ((pySplit s).filter (fun v => (w.environ v).isNone))))), fs) ∧
    (∀ t, do_main args (setTest w t) fs = do_main args w fs) := by
  have hdo : ∀ (w2 : World) (l2 : Launcher),
      loadInfoLauncher w2 fs args.infoPath = .ok l2 →
      w2.environ = w.environ →
      do_main args w2 fs =
        (.error (.launcherError "MissingInput"
          (some (missingInputMsg ((pySplit s).filter (fun v => (w.environ v).isNone))))), fs) := by
    intro w2 l2 hl2 hw2
    simp only [do_main, hcmd, hl2, henv, hne, hw2]
    rw [if_pos (List.length_pos.mpr hmiss)]
    simp
  have h1 := hdo w launcher hl rfl
  refine ⟨h1, fun t => ?_⟩
  rw [h1]
  exact hdo (setTest w t) { launcher with test := t }
    (loadInfoLauncher_setTest w t fs args.infoPath launcher hl) rfl

/-- C7 witness: `--env=A,B` with `A` set and `B` unset fails naming
exactly `['B']`. -/
theorem pytest_env_missing_input_witness :
    (pySplit "A,B").filter (fun v => ((sampleWorld.environ v).isNone)) = ["B"] ∧
    do_main { cmd := Cmd.pytest, env := some "A,B" } sampleWorld fsWithInfo =
      (.error (.launcherError "MissingInput"
        (some "Environment variable arguments have been indicated but not set: ['B']")),
       fsWithInfo) :=
  ⟨rfl,
    (pytest_env_missing_input { cmd := Cmd.pytest, env := some "A,B" }
      sampleWorld fsWithInfo sampleLauncher "A,B" rfl rfl rfl rfl (by decide)).1⟩

/-- Lookup in the env dict built from an all-present allowlist: exactly
the allowlisted names, mapped to their values in the environment. -/
theorem lookupD_buildEnvDict (varList : List String) (env : String → Option String)
    (hall : ∀ v ∈ varList, (env v).isSome) (x : String) (val : String) :
    lookupD (buildEnvDict varList env) x = some val ↔ (x ∈ varList ∧ env x = some val) := by
  induction varList with
  | nil => simp [buildEnvDict, lookupD]
  | cons e rest ih =>
    have he := hall e (by simp)
    obtain ⟨u, hu⟩ := Option.isSome_iff_exists.mp he
    have ih2 := ih (fun v hv => hall v (by simp [hv]))
    by_cases hx : x = e
    · subst hx
      simp only [buildEnvDict, List.map_cons, lookupD, eq_self_iff_true, if_true, hu,
        Option.getD_some]
      constructor
      · intro h
        exact ⟨List.mem_cons_self _ _, h⟩
      · rintro ⟨-, henvx⟩
        exact henvx
    · simp only [buildEnvDict, List.map_cons, lookupD, if_neg hx] at ih2 ⊢
      rw [ih2, List.mem_cons]
      constructor
      · rintro ⟨hm, hv⟩
        exact ⟨Or.inr hm, hv⟩
      · rintro ⟨hm | hm, hv⟩
        · exact absurd hm hx
        · exact ⟨hm, hv⟩

/-- C8: on a successful `pytest` run the env dict passed to the
launcher's `test` holds exactly the allowlisted names with their values
from the process environment — nothing else leaks through — and it is
empty when `--env` is omitted. -/
theorem pytest_env_allowlist_exact (args : Args) (w : World) (fs : Fs)
    (launcher : Launcher)
    (hcmd : args.cmd = Cmd.pytest)
    (hl : loadInfoLauncher w fs args.infoPath = .ok launcher)
    (hok : ∀ s, args.env = some s →
      pyContainsEq s = false ∧ ∀ v ∈ pySplit s, (w.environ v).isSome) :
    do_main args w fs =
      (launcher.test args.pytestExtras (buildEnvDict (envVarList args) w.environ), fs) ∧
    (∀ x val, lookupD (buildEnvDict (envVarList args) w.environ) x = some val ↔
      (x ∈ envVarList args ∧ w.environ x = some val)) ∧
    (args.env = none → buildEnvDict (envVarList args) w.environ = []) := by
  have hvl : ∀ v ∈ envVarList args, (w.environ v).isSome := by
    intro v hv
    cases henv : args.env with
    | none => rw [envVarList, henv] at hv; cases hv
    | some s =>
      rw [envVarList, henv] at hv
      exact (hok s henv).2 v hv
  refine ⟨?_, fun x val => lookupD_buildEnvDict (envVarList args) w.environ hvl x val, ?_⟩
  · cases henv : args.env with
    | none =>
      rw [show envVarList args = [] from by simp [envVarList, henv]]
      simp only [do_main, hcmd, hl, henv]
    | some s =>
      obtain ⟨hne, hall⟩ := hok s henv
      have hmiss : (pySplit s).filter (fun v => (w.environ v).isNone) = [] := by
        rw [List.filter_eq_nil_iff]
        intro v hv
        simp only [Option.isNone_iff_eq_none]
        exact fun hc => (Option.isSome_iff_ne_none.mp (hall v hv)) hc
      rw [show envVarList args = pySplit s from by simp [envVarList, henv]]
      simp only [do_main, hcmd, hl, henv, hne, hmiss]
      norm_num
  · intro henv
    rw [show envVarList args = [] from by simp [envVarList, henv]]
    rfl

/-- C8 witness: `--env=A` with `A=1` present forwards exactly
`[("A", "1")]`. -/
theorem pytest_env_allowlist_exact_witness :
    do_main { cmd := Cmd.pytest, env := some "A" } sampleWorld fsWithInfo =
      (sampleLauncher.test []
        (buildEnvDict (envVarList { cmd := Cmd.pytest, env := some "A" }) sampleWorld.environ),
       fsWithInfo) ∧
    buildEnvDict (envVarList { cmd := Cmd.pytest, env := some "A" }) sampleWorld.environ =
      [("A", "1")] :=
  ⟨(pytest_env_allowlist_exact { cmd := Cmd.pytest, env := some "A" } sampleWorld fsWithInfo
      sampleLauncher rfl rfl
      (fun s hs => by
        cases hs
        exact ⟨rfl, by decide⟩)).1,
   rfl⟩

/-- C10: `--env=` (empty string) parses as the single empty-string name,
so when `""` is not an environment variable the command fails with
`MissingInput` listing `''`, and the test runner is not invoked. -/
theorem pytest_env_empty_string_missing_input (args : Args) (w : World) (fs : Fs)
    (launcher : Launcher)
    (hcmd : args.cmd = Cmd.pytest)
    (hl : loadInfoLauncher w fs args.infoPath = .ok launcher)
    (henv : args.env = some "")
    (henviron : w.environ "" = none) :
    do_main args w fs =
      (.error (.launcherError "MissingInput"
        (some "Environment variable arguments have been indicated but not set: ['']")), fs) ∧
    (∀ t, do_main args (setTest w t) fs = do_main args w fs) := by
  have hdo : ∀ w2 : World, ∀ l2 : Launcher,
      loadInfoLauncher w2 fs args.infoPath = .ok l2 →
      w2.environ = w.environ →
      do_main args w2 fs =
        (.error (.launcherError "MissingInput"
          (some "Environment variable arguments have been indicated but not set: ['']")), fs) := by
    intro w2 l2 hl2 hw2
    have hps : pySplit "" = [""] := by decide
    have hfilter : (pySplit "").filter (fun v => (w.environ v).isNone) = [""] := by
      rw [hps, List.filter_cons]
      simp [henviron]
    have hpce : pyContainsEq "" = false := by decide
    simp only [do_main, hcmd, hl2, henv, hw2, hpce, hfilter]
    norm_num
    rfl
  have h1 := hdo w launcher hl rfl
  refine ⟨h1, fun t => ?_⟩
  rw [h1]
  exact hdo (setTest w t) { launcher with test := t }
    (loadInfoLauncher_setTest w t fs args.infoPath launcher hl) rfl

/-- C10 witness. -/
theorem pytest_env_empty_string_missing_input_witness :
    sampleWorld.environ "" = none ∧
    do_main { cmd := Cmd.pytest, env := some "" } sampleWorld fsWithInfo =
      (.error (.launcherError "MissingInput"
        (some "Environment variable arguments have been indicated but not set: ['']")),
       fsWithInfo) :=
  ⟨rfl,
    (pytest_env_empty_string_missing_input { cmd := Cmd.pytest, env := some "" }
      sampleWorld fsWithInfo sampleLauncher rfl rfl rfl rfl).1⟩

/-- C1 (amended): on an unparsable info file, the non-create commands
raise a plain `ValueError` whose message wraps the path and the original
parse diagnostic; it is *not* a `LauncherError`, so `main` does not catch
it and it propagates as an uncontrolled crash instead of exit code 1. -/
theorem invalid_json_uncaught_valueError (args : Args) (w : World) (fs : Fs)
    (content : List Char)
    (hcmd : args.cmd ≠ Cmd.create)
    (hfile : fs args.infoPath = some content)
    (hbad : loads content = none) :
    do_main args w fs =
      (.error (.valueError ("Invalid JSON in " ++ args.infoPath ++ ": " ++ w.jsonDiag content)),
       fs) ∧
    main args w fs =
      (.error (.valueError ("Invalid JSON in " ++ args.infoPath ++ ": " ++ w.jsonDiag content)),
       fs) := by
  have hload : loadInfoLauncher w fs args.infoPath =
      .error (.valueError ("Invalid JSON in " ++ args.infoPath ++ ": " ++ w.jsonDiag content)) := by
    simp only [loadInfoLauncher, load_json, hfile, hbad]
  have hdo : do_main args w fs =
      (.error (.valueError ("Invalid JSON in " ++ args.infoPath ++ ": " ++ w.jsonDiag content)),
       fs) := by
    unfold do_main
    cases hc : args.cmd with
    | create => exact absurd hc hcmd
    | wait => rw [hload]
    | describe => rw [hload]
    | pytest => rw [hload]
    | delete => rw [hload]
  refine ⟨hdo, ?_⟩
  unfold main
  rw [hdo]

/-- C1 witness for the amended claim. -/
theorem invalid_json_uncaught_valueError_witness :
    loads ['{'] = none ∧
    main { cmd := Cmd.wait } sampleWorld fsBadInfo =
      (.error (.valueError ("Invalid JSON in " ++ "cluster_info.json" ++ ": " ++
        sampleWorld.jsonDiag ['{'])), fsBadInfo) :=
  ⟨rfl,
    (invalid_json_uncaught_valueError { cmd := Cmd.wait } sampleWorld fsBadInfo ['{']
      (by decide) rfl rfl).2⟩

/-- C1 counterexample: with the info file containing `"{"`, the `wait`
command's outcome is an uncaught `ValueError` — not a domain error of
kind `InvalidJSON` — and the run does not end with exit code 1. -/
theorem c1_invalid_json_counterexample :
    (main { cmd := Cmd.wait } sampleWorld fsBadInfo).1 =
      .error (.valueError
        ("Invalid JSON in cluster_info.json: Expecting property name enclosed in double quotes: line 1 column 2 (char 1)")) ∧
    (main { cmd := Cmd.wait } sampleWorld fsBadInfo).1 ≠ .ok 1 := by
  refine ⟨rfl, ?_⟩
  intro h
  rw [show (main { cmd := Cmd.wait } sampleWorld fsBadInfo).1 =
    Except.error (PyExc.valueError
      ("Invalid JSON in cluster_info.json: Expecting property name enclosed in double quotes: line 1 column 2 (char 1)")) from rfl] at h
  exact absurd h (by simp)

/-! ## Round-trip infrastructure -/

/-- Induction over `JVal` with membership hypotheses for the nested
lists. -/
theorem JVal.my_ind (P : JVal → Prop)
    (h1 : P .jnull) (h2 : ∀ b, P (.jbool b)) (h3 : ∀ n, P (.jnum n))
    (h4 : ∀ s, P (.jstr s))
    (h5 : ∀ xs, (∀ x ∈ xs, P x) → P (.jarr xs))
    (h6 : ∀ kvs, (∀ p ∈ kvs, P p.2) → P (.jobj kvs)) :
    ∀ v, P v :=
  @JVal.rec P (fun xs => ∀ x ∈ xs, P x) (fun kvs => ∀ p ∈ kvs, P p.2) (fun p => P p.2)
    h1 h2 h3 h4 h5 h6
    (fun x hx => absurd hx (List.not_mem_nil x))
    (fun _ _ hhd htl => fun y hy => by
      rcases List.mem_cons.mp hy with h | h
      · subst h; exact hhd
      · exact htl y h)
    (fun q hq => absurd hq (List.not_mem_nil q))
    (fun _ _ hhd htl => fun q hq => by
      rcases List.mem_cons.mp hq with h | h
      · subst h; exact hhd
      · exact htl q h)
    (fun _ _ hv => hv)

/-- `Char.ofNat` inverts `Char.toNat` on valid scalar values. -/
theorem toNat_ofNat_valid (n : Nat) (h : n.isValidChar) : (Char.ofNat n).toNat = n := by
  rw [Char.ofNat, dif_pos h]; rfl

/-- Characters with equal code points are equal. -/
theorem char_eq_of_toNat {a b : Char} (h : a.toNat = b.toNat) : a = b :=
  Char.ext (UInt32.ext h)

/-- The code point of a `Char` is a Unicode scalar value. -/
theorem char_valid_nat (c : Char) : c.toNat < 55296 ∨ (57343 < c.toNat ∧ c.toNat < 1114112) := by
  rcases c.valid with h | ⟨h1, h2⟩
  · exact Or.inl (UInt32.toNat_lt_of_lt (by decide) h)
  · exact Or.inr ⟨UInt32.lt_toNat_of_lt (by decide) h1, UInt32.toNat_lt_of_lt (by decide) h2⟩

theorem digitChar_toNat (d : Nat) (h : d < 10) : (digitChar d).toNat = 48 + d :=
  toNat_ofNat_valid _ (Or.inl (by omega))

theorem isDigitCh_digitChar (d : Nat) (h : d < 10) : isDigitCh (digitChar d) = true := by
  simp only [isDigitCh, digitChar_toNat d h, decide_eq_true_eq]
  omega

theorem natRepr_head (n : Nat) :
    ∃ c t, natRepr n = c :: t ∧ 48 ≤ c.toNat ∧ c.toNat ≤ 57 ∧ (1 ≤ n → c.toNat ≠ 48) := by
  induction n using Nat.strong_induction_on with
  | _ n ih =>
    by_cases h : n < 10
    · refine ⟨digitChar n, [], by rw [natRepr, dif_pos h], ?_, ?_, ?_⟩ <;>
        rw [digitChar_toNat n h] <;> omega
    · obtain ⟨c, t, heq, h1, h2, h3⟩ := ih (n / 10) (Nat.div_lt_self (by omega) (by omega))
      exact ⟨c, t ++ [digitChar (n % 10)],
        by rw [natRepr, dif_neg h, heq]; rfl, h1, h2, fun _ => h3 (by omega)⟩

theorem natRepr_ne_nil (n : Nat) : natRepr n ≠ [] := by
  obtain ⟨c, t, heq, -⟩ := natRepr_head n
  rw [heq]
  exact List.cons_ne_nil c t

theorem parseDigits_stop (acc : Nat) (rest : List Char) (h : restOk rest) :
    parseDigits acc rest = (acc, rest) := by
  cases rest with
  | nil => rfl
  | cons c t =>
    obtain ⟨h1, -⟩ := h
    simp [parseDigits, h1]

theorem parseDigits_append (n : Nat) : ∀ (acc : Nat) (rest : List Char),
    parseDigits acc (natRepr n ++ rest) =
      parseDigits (acc * 10 ^ (natRepr n).length + n) rest := by
  induction n using Nat.strong_induction_on with
  | _ n ih =>
    intro acc rest
    by_cases h : n < 10
    · rw [natRepr, dif_pos h]
      simp only [List.cons_append, List.nil_append, parseDigits,
        isDigitCh_digitChar n h, if_true, List.length_singleton]
      rw [digitChar_toNat n h]
      congr 1
      omega
    · rw [natRepr, dif_neg h, List.append_assoc,
        ih (n / 10) (Nat.div_lt_self (by omega) (by omega)) acc _]
      have hd := isDigitCh_digitChar (n % 10) (Nat.mod_lt _ (by omega))
      simp only [List.singleton_append, List.nil_append, parseDigits, hd, if_true]
      rw [digitChar_toNat _ (Nat.mod_lt _ (by omega))]
      simp only [List.length_append, List.length_singleton]
      congr 1
      have key : ∀ A : Nat, A + n / 10 * 10 + (48 + n % 10 - 48) = A + n := by
        intro A
        omega
      calc (acc * 10 ^ (natRepr (n / 10)).length + n / 10) * 10 + (48 + n % 10 - 48)
          = acc * 10 ^ (natRepr (n / 10)).length * 10 + n / 10 * 10 + (48 + n % 10 - 48) := by
            ring
        _ = acc * 10 ^ (natRepr (n / 10)).length * 10 + n := key _
        _ = acc * 10 ^ ((natRepr (n / 10)).length + 1) + n := by
            rw [pow_succ, Nat.mul_assoc]

theorem parseUNum_natRepr (n : Nat) (rest : List Char) (h : restOk rest) :
    parseUNum (natRepr n ++ rest) = some (n, rest) := by
  by_cases h0 : n = 0
  · subst h0
    rw [show natRepr 0 = ['0'] from by rw [natRepr]; rfl]
    simp [parseUNum]
  · obtain ⟨c, t, heq, hge, hle, hne⟩ := natRepr_head n
    have hne48 := hne (by omega)
    have hc0 : c ≠ '0' := by
      intro hc
      rw [hc] at hne48
      exact hne48 (by decide)
    have hd : isDigitCh c = true := by
      simp only [isDigitCh, decide_eq_true_eq]
      omega
    have h1 : parseDigits 0 (natRepr n ++ rest) = (n, rest) := by
      rw [parseDigits_append n 0 rest, parseDigits_stop _ _ h]
      norm_num
    rw [heq, List.cons_append] at h1 ⊢
    simp only [parseDigits, hd, if_true, Nat.zero_mul, Nat.zero_add] at h1
    simp only [parseUNum, if_neg hc0, hd, if_true, h1]

theorem floatCont_restOk (rest : List Char) (h : restOk rest) : floatCont rest = false := by
  cases rest with
  | nil => rfl
  | cons c t =>
    obtain ⟨h1, h2, h3, h4⟩ := h
    unfold floatCont
    split <;> simp_all

theorem parseNum_intRepr (n : Int) (rest : List Char) (h : restOk rest) :
    parseNum (intRepr n ++ rest) = some (n, rest) := by
  unfold intRepr
  by_cases hn : n < 0
  · rw [if_pos hn, List.cons_append]
    simp only [parseNum, eq_self_iff_true, if_true, parseUNum_natRepr _ _ h,
      floatCont_restOk _ h, Bool.false_eq_true, if_false, Option.some.injEq,
      Prod.mk.injEq, and_true]
    omega
  · rw [if_neg hn]
    obtain ⟨c, t, heq, hge, hle, -⟩ := natRepr_head n.toNat
    have hcm : c ≠ '-' := by
      intro hc
      rw [hc] at hge
      exact absurd hge (by decide)
    rw [heq, List.cons_append]
    simp only [parseNum, if_neg hcm]
    rw [← List.cons_append, ← heq]
    simp only [parseUNum_natRepr _ _ h, floatCont_restOk _ h, Bool.false_eq_true,
      if_false, Option.some.injEq, Prod.mk.injEq, and_true]
    omega

theorem skipWs_not_ws (c : Char) (t : List Char) (h : isWs c = false) :
    skipWs (c :: t) = c :: t := by
  simp [skipWs, h]

theorem skipWs_replicate (k : Nat) (t : List Char) :
    skipWs (List.replicate k ' ' ++ t) = skipWs t := by
  induction k with
  | zero => rfl
  | succ k ih => simpa [List.replicate, skipWs, isWs] using ih

theorem skipWs_nlind (d : Nat) (t : List Char) : skipWs (nlind d ++ t) = skipWs t := by
  show skipWs ('\n' :: (List.replicate (2 * d) ' ' ++ t)) = skipWs t
  rw [show skipWs ('\n' :: (List.replicate (2 * d) ' ' ++ t))
      = skipWs (List.replicate (2 * d) ' ' ++ t) from by simp [skipWs, isWs]]
  exact skipWs_replicate _ t

theorem hexVal_hexDigitChar (d : Nat) (h : d < 16) : hexVal (hexDigitChar d) = some d := by
  interval_cases d <;> decide

theorem hexVal4_hex4 (n : Nat) (h : n < 65536) :
    hexVal4 (hexDigitChar (n / 4096 % 16)) (hexDigitChar (n / 256 % 16))
      (hexDigitChar (n / 16 % 16)) (hexDigitChar (n % 16)) = some n := by
  have e1 := hexVal_hexDigitChar (n / 4096 % 16) (Nat.mod_lt _ (by omega))
  have e2 := hexVal_hexDigitChar (n / 256 % 16) (Nat.mod_lt _ (by omega))
  have e3 := hexVal_hexDigitChar (n / 16 % 16) (Nat.mod_lt _ (by omega))
  have e4 := hexVal_hexDigitChar (n % 16) (Nat.mod_lt _ (by omega))
  simp only [hexVal4, e1, e2, e3, e4]
  congr 1
  omega

/-! Step lemmas exposing `parseStr` one consumed token at a time. -/

theorem parseStr_quote (r : List Char) : parseStr ('"' :: r) = some ([], r) := by
  rw [parseStr.eq_def]
  dsimp only
  rw [if_pos rfl]

theorem parseStr_lit (c : Char) (cs : List Char)
    (h1 : c ≠ '"') (h2 : c ≠ '\\') (h3 : ¬(c.toNat < 32)) :
    parseStr (c :: cs) =
      match parseStr cs with
      | none => none
      | some (t, r) => some (c :: t, r) := by
  rw [parseStr.eq_def]
  dsimp only
  rw [if_neg h1, if_neg h2, if_neg h3]

theorem parseStr_simpleEsc (e : Char) (cs2 : List Char) (he : e ≠ 'u') :
    parseStr ('\\' :: e :: cs2) =
      match simpleEsc e with
      | none => none
      | some c2 =>
        match parseStr cs2 with
        | none => none
        | some (t, r) => some (c2 :: t, r) := by
  rw [parseStr.eq_def]
  dsimp only
  rw [if_neg (by decide : ¬(('\\' : Char) = '"')), if_pos (rfl : ('\\' : Char) = '\\')]
  rw [parseStrEsc.eq_def]
  dsimp only
  rw [if_neg he]

theorem parseStr_u (h1 h2 h3 h4 : Char) (r : List Char) :
    parseStr ('\\' :: 'u' :: h1 :: h2 :: h3 :: h4 :: r) =
      match hexVal4 h1 h2 h3 h4 with
      | none => none
      | some n =>
        if n < 55296 ∨ 57344 ≤ n then
          match parseStr r with
          | none => none
          | some (t, r2) => some (Char.ofNat n :: t, r2)
        else if n < 56320 then parseStrLow n r
        else none := by
  rw [parseStr.eq_def]
  dsimp only
  rw [if_neg (by decide : ¬(('\\' : Char) = '"')), if_pos (rfl : ('\\' : Char) = '\\')]
  rw [parseStrEsc.eq_def]
  dsimp only
  rw [if_pos (rfl : ('u' : Char) = 'u')]
  rw [parseStrU.eq_def]

theorem parseStrLow_pair (n : Nat) (g1 g2 g3 g4 : Char) (r2 : List Char) :
    parseStrLow n ('\\' :: 'u' :: g1 :: g2 :: g3 :: g4 :: r2) =
      match hexVal4 g1 g2 g3 g4 with
      | none => none
      | some m =>
        if 56320 ≤ m ∧ m < 57344 then
          match parseStr r2 with
          | none => none
          | some (t, r3) =>
            some (Char.ofNat (65536 + (n - 55296) * 1024 + (m - 56320)) :: t, r3)
        else none := by
  rw [parseStrLow.eq_def]
  dsimp only
  rw [if_pos (by decide : ('\\' : Char) = '\\' ∧ ('u' : Char) = 'u')]

/-- Escaping a string body and parsing it back (up to the closing quote)
recovers the string and the trailing context. -/
theorem parseStr_escape (s : List Char) : ∀ rest : List Char,
    parseStr (escapeStr s ++ ('"' :: rest)) = some (s, rest) := by
  induction s with
  | nil =>
    intro rest
    rw [show escapeStr [] = [] from rfl, List.nil_append, parseStr_quote]
  | cons c s ih =>
    intro rest
    rw [show escapeStr (c :: s) = escapeChar c ++ escapeStr s from rfl, List.append_assoc]
    by_cases hq : c = '"'
    · subst hq
      rw [show escapeChar '"' = ['\\', '"'] from by decide]
      rw [show (['\\', '"'] : List Char) ++ (escapeStr s ++ '"' :: rest)
          = '\\' :: '"' :: (escapeStr s ++ '"' :: rest) from rfl]
      rw [parseStr_simpleEsc _ _ (by decide), show simpleEsc '"' = some '"' from rfl, ih]
    · by_cases hb : c = '\\'
      · subst hb
        rw [show escapeChar '\\' = ['\\', '\\'] from by decide]
        rw [show (['\\', '\\'] : List Char) ++ (escapeStr s ++ '"' :: rest)
            = '\\' :: '\\' :: (escapeStr s ++ '"' :: rest) from rfl]
        rw [parseStr_simpleEsc _ _ (by decide), show simpleEsc '\\' = some '\\' from rfl, ih]
      · by_cases hp : 32 ≤ c.toNat ∧ c.toNat ≤ 126
        · have hec : escapeChar c = [c] := by
            rw [escapeChar, if_neg hq, if_neg hb, if_pos hp]
          rw [hec, List.singleton_append, parseStr_lit c _ hq hb (by omega), ih]
        · by_cases h8 : c.toNat = 8
          · have hec : escapeChar c = ['\\', 'b'] := by
              rw [escapeChar, if_neg hq, if_neg hb, if_neg hp, if_pos h8]
            have hcc : Char.ofNat 8 = c :=
              char_eq_of_toNat (by rw [toNat_ofNat_valid 8 (Or.inl (by omega)), h8])
            rw [hec]
            rw [show (['\\', 'b'] : List Char) ++ (escapeStr s ++ '"' :: rest)
                = '\\' :: 'b' :: (escapeStr s ++ '"' :: rest) from rfl]
            rw [parseStr_simpleEsc _ _ (by decide),
              show simpleEsc 'b' = some (Char.ofNat 8) from rfl, ih, hcc]
          · by_cases h9 : c.toNat = 9
            · have hec : escapeChar c = ['\\', 't'] := by
                rw [escapeChar, if_neg hq, if_neg hb, if_neg hp, if_neg h8, if_pos h9]
              have hcc : Char.ofNat 9 = c :=
                char_eq_of_toNat (by rw [toNat_ofNat_valid 9 (Or.inl (by omega)), h9])
              rw [hec]
              rw [show (['\\', 't'] : List Char) ++ (escapeStr s ++ '"' :: rest)
                  = '\\' :: 't' :: (escapeStr s ++ '"' :: rest) from rfl]
              rw [parseStr_simpleEsc _ _ (by decide),
                show simpleEsc 't' = some (Char.ofNat 9) from rfl, ih, hcc]
            · by_cases h10 : c.toNat = 10
              · have hec : escapeChar c = ['\\', 'n'] := by
                  rw [escapeChar, if_neg hq, if_neg hb, if_neg hp, if_neg h8, if_neg h9,
                    if_pos h10]
                have hcc : Char.ofNat 10 = c :=
                  char_eq_of_toNat (by rw [toNat_ofNat_valid 10 (Or.inl (by omega)), h10])
                rw [hec]
                rw [show (['\\', 'n'] : List Char) ++ (escapeStr s ++ '"' :: rest)
                    = '\\' :: 'n' :: (escapeStr s ++ '"' :: rest) from rfl]
                rw [parseStr_simpleEsc _ _ (by decide),
                  show simpleEsc 'n' = some (Char.ofNat 10) from rfl, ih, hcc]
              · by_cases h12 : c.toNat = 12
                · have hec : escapeChar c = ['\\', 'f'] := by
                    rw [escapeChar, if_neg hq, if_neg hb, if_neg hp, if_neg h8, if_neg h9,
                      if_neg h10, if_pos h12]
                  have hcc : Char.ofNat 12 = c :=
                    char_eq_of_toNat (by rw [toNat_ofNat_valid 12 (Or.inl (by omega)), h12])
                  rw [hec]
                  rw [show (['\\', 'f'] : List Char) ++ (escapeStr s ++ '"' :: rest)
                      = '\\' :: 'f' :: (escapeStr s ++ '"' :: rest) from rfl]
                  rw [parseStr_simpleEsc _ _ (by decide),
                    show simpleEsc 'f' = some (Char.ofNat 12) from rfl, ih, hcc]
                · by_cases h13 : c.toNat = 13
                  · have hec : escapeChar c = ['\\', 'r'] := by
                      rw [escapeChar, if_neg hq, if_neg hb, if_neg hp, if_neg h8, if_neg h9,
                        if_neg h10, if_neg h12, if_pos h13]
                    have hcc : Char.ofNat 13 = c :=
                      char_eq_of_toNat (by rw [toNat_ofNat_valid 13 (Or.inl (by omega)), h13])
                    rw [hec]
                    rw [show (['\\', 'r'] : List Char) ++ (escapeStr s ++ '"' :: rest)
                        = '\\' :: 'r' :: (escapeStr s ++ '"' :: rest) from rfl]
                    rw [parseStr_simpleEsc _ _ (by decide),
                      show simpleEsc 'r' = some (Char.ofNat 13) from rfl, ih, hcc]
                  · by_cases h16 : c.toNat < 65536
                    · have hec : escapeChar c = '\\' :: 'u' :: hex4 c.toNat := by
                        rw [escapeChar, if_neg hq, if_neg hb, if_neg hp, if_neg h8, if_neg h9,
                          if_neg h10, if_neg h12, if_neg h13, if_pos h16]
                      have hvd : c.toNat < 55296 ∨ 57344 ≤ c.toNat := by
                        rcases char_valid_nat c with h | ⟨h1, -⟩
                        · exact Or.inl h
                        · exact Or.inr (by omega)
                      rw [hec, hex4]
                      rw [show ('\\' :: 'u' :: [hexDigitChar (c.toNat / 4096 % 16),
                            hexDigitChar (c.toNat / 256 % 16), hexDigitChar (c.toNat / 16 % 16),
                            hexDigitChar (c.toNat % 16)]) ++ (escapeStr s ++ '"' :: rest)
                          = '\\' :: 'u' :: hexDigitChar (c.toNat / 4096 % 16) ::
                            hexDigitChar (c.toNat / 256 % 16) :: hexDigitChar (c.toNat / 16 % 16) ::
                            hexDigitChar (c.toNat % 16) :: (escapeStr s ++ '"' :: rest) from rfl]
                      rw [parseStr_u, hexVal4_hex4 c.toNat h16]
                      dsimp only
                      rw [if_pos hvd, ih]
                      rw [Char.ofNat_toNat]
                    · have hmax : c.toNat < 1114112 := by
                        rcases char_valid_nat c with h | ⟨-, h2⟩
                        · omega
                        · exact h2
                      have hmod := Nat.mod_lt (c.toNat - 65536) (y := 1024) (by omega)
                      have hdiv : (c.toNat - 65536) / 1024 < 1024 := by
                        apply Nat.div_lt_of_lt_mul
                        omega
                      have hec : escapeChar c =
                          '\\' :: 'u' :: hex4 (55296 + (c.toNat - 65536) / 1024) ++
                          ('\\' :: 'u' :: hex4 (56320 + (c.toNat - 65536) % 1024)) := by
                        rw [escapeChar, if_neg hq, if_neg hb, if_neg hp, if_neg h8, if_neg h9,
                          if_neg h10, if_neg h12, if_neg h13, if_neg h16]
                      have hhi16 : 55296 + (c.toNat - 65536) / 1024 < 65536 := by omega
                      have hlo16 : 56320 + (c.toNat - 65536) % 1024 < 65536 := by omega
                      rw [hec, hex4, hex4]
                      rw [show (('\\' :: 'u' :: [hexDigitChar ((55296 + (c.toNat - 65536) / 1024) / 4096 % 16),
                            hexDigitChar ((55296 + (c.toNat - 65536) / 1024) / 256 % 16),
                            hexDigitChar ((55296 + (c.toNat - 65536) / 1024) / 16 % 16),
                            hexDigitChar ((55296 + (c.toNat - 65536) / 1024) % 16)] ++
                            ('\\' :: 'u' :: [hexDigitChar ((56320 + (c.toNat - 65536) % 1024) / 4096 % 16),
                            hexDigitChar ((56320 + (c.toNat - 65536) % 1024) / 256 % 16),
                            hexDigitChar ((56320 + (c.toNat - 65536) % 1024) / 16 % 16),
                            hexDigitChar ((56320 + (c.toNat - 65536) % 1024) % 16)])) ++
                            (escapeStr s ++ '"' :: rest))
                          = '\\' :: 'u' :: hexDigitChar ((55296 + (c.toNat - 65536) / 1024) / 4096 % 16) ::
                            hexDigitChar ((55296 + (c.toNat - 65536) / 1024) / 256 % 16) ::
                            hexDigitChar ((55296 + (c.toNat - 65536) / 1024) / 16 % 16) ::
                            hexDigitChar ((55296 + (c.toNat - 65536) / 1024) % 16) ::
                            ('\\' :: 'u' :: hexDigitChar ((56320 + (c.toNat - 65536) % 1024) / 4096 % 16) ::
                            hexDigitChar ((56320 + (c.toNat - 65536) % 1024) / 256 % 16) ::
                            hexDigitChar ((56320 + (c.toNat - 65536) % 1024) / 16 % 16) ::
                            hexDigitChar ((56320 + (c.toNat - 65536) % 1024) % 16) ::
                            (escapeStr s ++ '"' :: rest)) from by simp]
                      rw [parseStr_u, hexVal4_hex4 _ hhi16]
                      dsimp only
                      rw [if_neg (by omega :
                          ¬(55296 + (c.toNat - 65536) / 1024 < 55296 ∨
                            57344 ≤ 55296 + (c.toNat - 65536) / 1024)),
                        if_pos (by omega : 55296 + (c.toNat - 65536) / 1024 < 56320)]
                      rw [parseStrLow_pair]
                      rw [hexVal4_hex4 _ hlo16]
                      dsimp only
                      rw [if_pos (by omega :
                          56320 ≤ 56320 + (c.toNat - 65536) % 1024 ∧
                          56320 + (c.toNat - 65536) % 1024 < 57344)]
                      rw [ih]
                      have hcomb : 65536 + (55296 + (c.toNat - 65536) / 1024 - 55296) * 1024 +
                          (56320 + (c.toNat - 65536) % 1024 - 56320) = c.toNat := by
                        have := Nat.div_add_mod (c.toNat - 65536) 1024
                        omega
                      rw [hcomb, Char.ofNat_toNat]

/-! Order lemmas for the key sort. -/

theorem strLe_total (a b : List Char) : strLe a b = true ∨ strLe b a = true := by
  induction a generalizing b with
  | nil => left; rfl
  | cons x xs ih =>
    cases b with
    | nil => right; rfl
    | cons y ys =>
      by_cases h1 : x.toNat < y.toNat
      · left; simp [strLe, h1]
      · by_cases h2 : y.toNat < x.toNat
        · right; simp [strLe, h2]
        · rcases ih ys with h | h
          · left; simp [strLe, h1, h2, h]
          · right; simp [strLe, h1, h2, h]

theorem strLe_trans {a b c : List Char} (h1 : strLe a b = true) (h2 : strLe b c = true) :
    strLe a c = true := by
  induction a generalizing b c with
  | nil => rfl
  | cons x xs ih =>
    cases b with
    | nil => simp [strLe] at h1
    | cons y ys =>
      cases c with
      | nil => simp [strLe] at h2
      | cons z zs =>
        simp only [strLe] at h1 h2 ⊢
        by_cases hxy : x.toNat < y.toNat
        · by_cases hyz : y.toNat < z.toNat
          · simp [show x.toNat < z.toNat from by omega]
          · by_cases hzy : z.toNat < y.toNat
            · rw [if_neg hyz, if_pos hzy] at h2
              exact absurd h2 (by simp)
            · simp [show x.toNat < z.toNat from by omega]
        · by_cases hyx : y.toNat < x.toNat
          · rw [if_neg hxy, if_pos hyx] at h1
            exact absurd h1 (by simp)
          · rw [if_neg hxy, if_neg hyx] at h1
            by_cases hyz : y.toNat < z.toNat
            · simp [show x.toNat < z.toNat from by omega]
            · by_cases hzy : z.toNat < y.toNat
              · rw [if_neg hyz, if_pos hzy] at h2
                exact absurd h2 (by simp)
              · rw [if_neg hyz, if_neg hzy] at h2
                rw [if_neg (show ¬x.toNat < z.toNat from by omega),
                  if_neg (show ¬z.toNat < x.toNat from by omega)]
                exact ih h1 h2

instance : IsTotal (List Char × JVal) entryLe :=
  ⟨fun p q => strLe_total p.1 q.1⟩

instance : IsTrans (List Char × JVal) entryLe :=
  ⟨fun _ _ _ h1 h2 => strLe_trans h1 h2⟩

instance : IsTotal (List Char × List Char) renderedLe :=
  ⟨fun p q => strLe_total p.1 q.1⟩

instance : IsTrans (List Char × List Char) renderedLe :=
  ⟨fun _ _ _ h1 h2 => strLe_trans h1 h2⟩

/-! Rendering entries commutes with the key sort (rendering and
canonicalization keep keys fixed, and insertion sort is a stable key
sort), so sorting rendered members equals rendering sorted entries — the
order of operations in CPython's encoder. -/

theorem orderedInsert_renderKVs (d : Nat) (p : List Char × JVal)
    (l : List (List Char × JVal)) :
    List.orderedInsert renderedLe (p.1, serVal d p.2) (renderKVs d l) =
      renderKVs d (List.orderedInsert entryLe p l) := by
  induction l with
  | nil => rfl
  | cons q l ih =>
    show List.orderedInsert renderedLe _ ((q.1, serVal d q.2) :: renderKVs d l) = _
    rw [List.orderedInsert, List.orderedInsert]
    by_cases h : strLe p.1 q.1 = true
    · rw [if_pos (show renderedLe (p.1, serVal d p.2) (q.1, serVal d q.2) from h),
        if_pos (show entryLe p q from h)]
      rfl
    · rw [if_neg (show ¬renderedLe (p.1, serVal d p.2) (q.1, serVal d q.2) from h),
        if_neg (show ¬entryLe p q from h)]
      rw [show renderKVs d (q :: List.orderedInsert entryLe p l)
          = (q.1, serVal d q.2) :: renderKVs d (List.orderedInsert entryLe p l) from rfl, ih]

theorem insertionSort_renderKVs (d : Nat) (kvs : List (List Char × JVal)) :
    List.insertionSort renderedLe (renderKVs d kvs) = renderKVs d (sortEntries kvs) := by
  unfold sortEntries
  induction kvs with
  | nil => rfl
  | cons p l ih =>
    show List.insertionSort renderedLe ((p.1, serVal d p.2) :: renderKVs d l) = _
    rw [List.insertionSort, List.insertionSort, ih, orderedInsert_renderKVs]

theorem orderedInsert_canonKV (p : List Char × JVal) (l : List (List Char × JVal)) :
    List.orderedInsert entryLe (p.1, canon p.2) (canonKV l) =
      canonKV (List.orderedInsert entryLe p l) := by
  induction l with
  | nil => rfl
  | cons q l ih =>
    show List.orderedInsert entryLe _ ((q.1, canon q.2) :: canonKV l) = _
    rw [List.orderedInsert, List.orderedInsert]
    by_cases h : strLe p.1 q.1 = true
    · rw [if_pos (show entryLe (p.1, canon p.2) (q.1, canon q.2) from h),
        if_pos (show entryLe p q from h)]
      rfl
    · rw [if_neg (show ¬entryLe (p.1, canon p.2) (q.1, canon q.2) from h),
        if_neg (show ¬entryLe p q from h)]
      rw [show canonKV (q :: List.orderedInsert entryLe p l)
          = (q.1, canon q.2) :: canonKV (List.orderedInsert entryLe p l) from rfl, ih]

theorem sortEntries_canonKV (l : List (List Char × JVal)) :
    sortEntries (canonKV l) = canonKV (sortEntries l) := by
  unfold sortEntries
  induction l with
  | nil => rfl
  | cons p l ih =>
    show List.insertionSort entryLe ((p.1, canon p.2) :: canonKV l) = _
    rw [List.insertionSort, List.insertionSort, ih, orderedInsert_canonKV]

/-! Size lemmas. -/

theorem jsize_pos (v : JVal) : 1 ≤ jsize v := by
  cases v <;> simp [jsize]

theorem jsizeKV_eq_sum (l : List (List Char × JVal)) :
    jsizeKV l = (l.map (fun p => 1 + jsize p.2)).sum := by
  induction l with
  | nil => rfl
  | cons p ps ih =>
    simp [jsizeKV, ih]
    try omega

theorem jsizeKV_perm {l l2 : List (List Char × JVal)} (h : l.Perm l2) :
    jsizeKV l = jsizeKV l2 := by
  rw [jsizeKV_eq_sum, jsizeKV_eq_sum]
  exact (h.map _).sum_eq

theorem sortEntries_perm (l : List (List Char × JVal)) : (sortEntries l).Perm l :=
  List.perm_insertionSort entryLe l

theorem mem_sortEntries {p : List Char × JVal} {l : List (List Char × JVal)}
    (h : p ∈ sortEntries l) : p ∈ l :=
  (sortEntries_perm l).mem_iff.mp h

/-! Character-class facts about serialized heads. -/

theorem char_toNat_ne {a b : Char} (h : a.toNat ≠ b.toNat) : a ≠ b :=
  fun he => h (he ▸ rfl)

theorem head_flags_of_toNat (c : Char)
    (h : (45 ≤ c.toNat ∧ c.toNat ≤ 57) ∨ c.toNat = 34 ∨ c.toNat = 123 ∨ c.toNat = 91 ∨
      c.toNat = 110 ∨ c.toNat = 116 ∨ c.toNat = 102) :
    isWs c = false ∧ c ≠ ']' ∧ c ≠ '}' := by
  have hsp : c ≠ ' ' := char_toNat_ne (by
    have e : (' ' : Char).toNat = 32 := by decide
    omega)
  have hta : c ≠ '\t' := char_toNat_ne (by
    have e : ('\t' : Char).toNat = 9 := by decide
    omega)
  have hnl : c ≠ '\n' := char_toNat_ne (by
    have e : ('\n' : Char).toNat = 10 := by decide
    omega)
  have hcr : c ≠ '\r' := char_toNat_ne (by
    have e : ('\r' : Char).toNat = 13 := by decide
    omega)
  refine ⟨by simp [isWs, hsp, hta, hnl, hcr], ?_, ?_⟩
  · exact char_toNat_ne (by
      have e : (']' : Char).toNat = 93 := by decide
      omega)
  · exact char_toNat_ne (by
      have e : ('}' : Char).toNat = 125 := by decide
      omega)

theorem intRepr_head (n : Int) :
    ∃ c t, intRepr n = c :: t ∧ ((45 ≤ c.toNat ∧ c.toNat ≤ 57) ∧ (c = '-' ∨ isDigitCh c = true)) := by
  unfold intRepr
  by_cases hn : n < 0
  · rw [if_pos hn]
    exact ⟨'-', _, rfl, by decide, Or.inl rfl⟩
  · rw [if_neg hn]
    obtain ⟨c, t, heq, hge, hle, -⟩ := natRepr_head n.toNat
    exact ⟨c, t, heq, ⟨by omega, by omega⟩,
      Or.inr (by simp only [isDigitCh, decide_eq_true_eq]; omega)⟩

theorem serVal_head (d : Nat) (v : JVal) :
    ∃ c t, serVal d v = c :: t ∧ isWs c = false ∧ c ≠ ']' ∧ c ≠ '}' := by
  cases v with
  | jnull =>
    exact ⟨'n', _, rfl, head_flags_of_toNat 'n' (by decide)⟩
  | jbool b =>
    cases b with
    | true => exact ⟨'t', _, rfl, head_flags_of_toNat 't' (by decide)⟩
    | false => exact ⟨'f', _, rfl, head_flags_of_toNat 'f' (by decide)⟩
  | jnum n =>
    obtain ⟨c, t, heq, hrange, -⟩ := intRepr_head n
    exact ⟨c, t, by rw [show serVal d (.jnum n) = intRepr n from rfl, heq],
      head_flags_of_toNat c (Or.inl hrange)⟩
  | jstr s =>
    exact ⟨'"', _, rfl, head_flags_of_toNat '"' (by decide)⟩
  | jarr xs =>
    cases xs with
    | nil => exact ⟨'[', _, rfl, head_flags_of_toNat '[' (by decide)⟩
    | cons x rest => exact ⟨'[', _, rfl, head_flags_of_toNat '[' (by decide)⟩
  | jobj kvs =>
    have hser : serVal d (.jobj kvs)
        = assembleObj d (List.insertionSort renderedLe (renderKVs (d + 1) kvs)) := rfl
    cases hL : List.insertionSort renderedLe (renderKVs (d + 1) kvs) with
    | nil =>
      exact ⟨'{', ['}'], by rw [hser, hL]; rfl, head_flags_of_toNat '{' (by decide)⟩
    | cons m ms =>
      exact ⟨'{', _, by rw [hser, hL]; rfl, head_flags_of_toNat '{' (by decide)⟩

/-! `restOk` holds at every position that follows a value in the
serializer's output. -/

theorem restOk_nil : restOk [] := trivial

theorem restOk_comma (t : List Char) : restOk (',' :: t) :=
  ⟨by decide, by decide, by decide, by decide⟩

theorem restOk_newline (t : List Char) : restOk ('\n' :: t) :=
  ⟨by decide, by decide, by decide, by decide⟩

theorem restOk_nlind (d : Nat) (t : List Char) : restOk (nlind d ++ t) :=
  restOk_newline _

/-! Step lemmas for the value parser. -/

theorem parseVal_str_step (f : Nat) (cs : List Char) :
    parseVal (f + 1) ('"' :: cs) = jstrResult (parseStr cs) := by
  rw [parseVal.eq_def]
  dsimp only
  rw [if_pos rfl]

theorem parseVal_obj_step (f : Nat) (cs : List Char) :
    parseVal (f + 1) ('{' :: cs) = parseObjBody f (skipWs cs) := by
  rw [parseVal.eq_def]
  dsimp only
  rw [if_neg (by decide : ¬(('{' : Char) = '"')), if_pos rfl]

theorem parseVal_arr_step (f : Nat) (cs : List Char) :
    parseVal (f + 1) ('[' :: cs) = parseArrBody f (skipWs cs) := by
  rw [parseVal.eq_def]
  dsimp only
  rw [if_neg (by decide : ¬(('[' : Char) = '"')), if_neg (by decide : ¬(('[' : Char) = '{')),
    if_pos rfl]

theorem parseVal_null_step (f : Nat) (r : List Char) :
    parseVal (f + 1) ('n' :: 'u' :: 'l' :: 'l' :: r) = some (.jnull, r) := by
  rw [parseVal.eq_def]
  dsimp only
  rw [if_neg (by decide : ¬(('n' : Char) = '"')), if_neg (by decide : ¬(('n' : Char) = '{')),
    if_neg (by decide : ¬(('n' : Char) = '[')), if_pos rfl]
  rw [parseLitNull.eq_def]
  dsimp only
  rw [if_pos (by decide : ('u' : Char) = 'u' ∧ ('l' : Char) = 'l' ∧ ('l' : Char) = 'l')]

theorem parseVal_true_step (f : Nat) (r : List Char) :
    parseVal (f + 1) ('t' :: 'r' :: 'u' :: 'e' :: r) = some (.jbool true, r) := by
  rw [parseVal.eq_def]
  dsimp only
  rw [if_neg (by decide : ¬(('t' : Char) = '"')), if_neg (by decide : ¬(('t' : Char) = '{')),
    if_neg (by decide : ¬(('t' : Char) = '[')), if_neg (by decide : ¬(('t' : Char) = 'n')),
    if_pos rfl]
  rw [parseLitTrue.eq_def]
  dsimp only
  rw [if_pos (by decide : ('r' : Char) = 'r' ∧ ('u' : Char) = 'u' ∧ ('e' : Char) = 'e')]

theorem parseVal_false_step (f : Nat) (r : List Char) :
    parseVal (f + 1) ('f' :: 'a' :: 'l' :: 's' :: 'e' :: r) = some (.jbool false, r) := by
  rw [parseVal.eq_def]
  dsimp only
  rw [if_neg (by decide : ¬(('f' : Char) = '"')), if_neg (by decide : ¬(('f' : Char) = '{')),
    if_neg (by decide : ¬(('f' : Char) = '[')), if_neg (by decide : ¬(('f' : Char) = 'n')),
    if_neg (by decide : ¬(('f' : Char) = 't')), if_pos rfl]
  rw [parseLitFalse.eq_def]
  dsimp only
  rw [if_pos (by decide :
    ('a' : Char) = 'a' ∧ ('l' : Char) = 'l' ∧ ('s' : Char) = 's' ∧ ('e' : Char) = 'e')]

theorem parseVal_num_step (f : Nat) (c : Char) (cs : List Char)
    (hrange : 45 ≤ c.toNat ∧ c.toNat ≤ 57)
    (hnum : c = '-' ∨ isDigitCh c = true) :
    parseVal (f + 1) (c :: cs) = jnumResult (parseNum (c :: cs)) := by
  have h1 : c ≠ '"' := char_toNat_ne (by
    have e : ('"' : Char).toNat = 34 := by decide
    omega)
  have h2 : c ≠ '{' := char_toNat_ne (by
    have e : ('{' : Char).toNat = 123 := by decide
    omega)
  have h3 : c ≠ '[' := char_toNat_ne (by
    have e : ('[' : Char).toNat = 91 := by decide
    omega)
  have h4 : c ≠ 'n' := char_toNat_ne (by
    have e : ('n' : Char).toNat = 110 := by decide
    omega)
  have h5 : c ≠ 't' := char_toNat_ne (by
    have e : ('t' : Char).toNat = 116 := by decide
    omega)
  have h6 : c ≠ 'f' := char_toNat_ne (by
    have e : ('f' : Char).toNat = 102 := by decide
    omega)
  rw [parseVal.eq_def]
  dsimp only
  rw [if_neg h1, if_neg h2, if_neg h3, if_neg h4, if_neg h5, if_neg h6, if_pos hnum]

theorem parseObjBody_cons (f : Nat) (c2 : Char) (r : List Char) :
    parseObjBody (f + 1) (c2 :: r) =
      if c2 = '}' then some (.jobj [], r)
      else
        match parseMember f (c2 :: r) with
        | none => none
        | some (m, r2) =>
          match parseMembers f r2 with
          | none => none
          | some (ms, r3) => some (.jobj (m :: ms), r3) := by
  rw [parseObjBody.eq_def]

theorem parseArrBody_cons (f : Nat) (c2 : Char) (r : List Char) :
    parseArrBody (f + 1) (c2 :: r) =
      if c2 = ']' then some (.jarr [], r)
      else
        match parseVal f (c2 :: r) with
        | none => none
        | some (v, r2) =>
          match parseElems f r2 with
          | none => none
          | some (vs, r3) => some (.jarr (v :: vs), r3) := by
  rw [parseArrBody.eq_def]

theorem parseMember_step (f : Nat) (cs : List Char) :
    parseMember (f + 1) ('"' :: cs) =
      match parseStr cs with
      | none => none
      | some (k, r) =>
        match skipWs r with
        | [] => none
        | c2 :: r2 =>
          if c2 = ':' then
            match parseVal f (skipWs r2) with
            | none => none
            | some (v, r3) => some ((k, v), r3)
          else none := by
  rw [parseMember.eq_def]
  dsimp only
  rw [if_pos rfl]

theorem parseMembers_step (f : Nat) (s : List Char) :
    parseMembers (f + 1) s =
      match skipWs s with
      | [] => none
      | c :: r =>
        if c = '}' then some ([], r)
        else if c = ',' then
          match parseMember f (skipWs r) with
          | none => none
          | some (m, r2) =>
            match parseMembers f r2 with
            | none => none
            | some (ms, r3) => some (m :: ms, r3)
        else none := by
  rw [parseMembers.eq_def]

theorem parseElems_step (f : Nat) (s : List Char) :
    parseElems (f + 1) s =
      match skipWs s with
      | [] => none
      | c :: r =>
        if c = ']' then some ([], r)
        else if c = ',' then
          match parseVal f (skipWs r) with
          | none => none
          | some (v, r2) =>
            match parseElems f r2 with
            | none => none
            | some (vs, r3) => some (v :: vs, r3)
        else none := by
  rw [parseElems.eq_def]

/-! Positions following a value in serializer output satisfy `restOk`,
and serialized members start with a quote. -/

theorem restOk_serList (d' d : Nat) (xs : List JVal) (X : List Char) :
    restOk (serList d' xs ++ (nlind d ++ X)) := by
  cases xs with
  | nil =>
    show restOk ([] ++ (nlind d ++ X))
    rw [List.nil_append]
    exact restOk_nlind d X
  | cons x xs => exact restOk_comma _

theorem restOk_objRest (d2 : Nat) (ms : List (List Char × List Char)) (d : Nat)
    (X : List Char) :
    restOk (assembleObjRest d2 ms ++ (nlind d ++ X)) := by
  cases ms with
  | nil =>
    show restOk ([] ++ (nlind d ++ X))
    rw [List.nil_append]
    exact restOk_nlind d X
  | cons m ms => exact restOk_comma _

theorem renderMember_append (m : List Char × List Char) (Y : List Char) :
    renderMember m ++ Y = '"' :: (escapeStr m.1 ++ ('"' :: (':' :: (m.2 ++ Y)))) := by
  simp [renderMember, List.cons_append, List.append_assoc]

theorem skipWs_renderMember (m : List Char × List Char) (Y : List Char) :
    skipWs (renderMember m ++ Y) = renderMember m ++ Y := by
  rw [renderMember_append, skipWs_not_ws '"' _ (by decide), ← renderMember_append]

/-- `sort_keys=True` in the model: serializing an object renders the
key-sorted entries. -/
theorem serVal_obj (d : Nat) (kvs : List (List Char × JVal)) :
    serVal d (.jobj kvs) = assembleObj d (renderKVs (d + 1) (sortEntries kvs)) := by
  rw [show serVal d (.jobj kvs)
      = assembleObj d (List.insertionSort renderedLe (renderKVs (d + 1) kvs)) from rfl,
    insertionSort_renderKVs]

/-- Parsing one serialized member. -/
theorem parseMember_render (k : List Char) (val : JVal) (dv : Nat)
    (IH : ∀ d f rest, 3 * jsize val ≤ f → restOk rest →
      parseVal f (serVal d val ++ rest) = some (canon val, rest)) :
    ∀ f rest, 3 * jsize val + 1 ≤ f → restOk rest →
    parseMember f (renderMember (k, serVal dv val) ++ rest) = some ((k, canon val), rest) := by
  intro f rest hf hr
  obtain ⟨f', rfl⟩ : ∃ f', f = f' + 1 := ⟨f - 1, by omega⟩
  rw [renderMember_append]
  rw [parseMember_step, parseStr_escape]
  dsimp only
  rw [skipWs_not_ws ':' _ (by decide)]
  dsimp only
  rw [if_pos rfl]
  obtain ⟨c0, t0, hser, hws, -, -⟩ := serVal_head dv val
  rw [hser, List.cons_append, skipWs_not_ws _ _ hws, ← List.cons_append, ← hser]
  rw [IH dv f' rest (by omega) hr]

/-- Parsing the member loop over serialized remaining entries. -/
theorem parseMembers_objRest (dv : Nat) (ms : List (List Char × JVal))
    (IH : ∀ p ∈ ms, ∀ d f rest, 3 * jsize p.2 ≤ f → restOk rest →
      parseVal f (serVal d p.2 ++ rest) = some (canon p.2, rest)) :
    ∀ d2 d3 f rest, 3 * jsizeKV ms + 1 ≤ f → restOk rest →
    parseMembers f (assembleObjRest d2 (renderKVs dv ms) ++ (nlind d3 ++ ('}' :: rest)))
      = some (canonKV ms, rest) := by
  induction ms with
  | nil =>
    intro d2 d3 f rest hf hr
    obtain ⟨f', rfl⟩ : ∃ f', f = f' + 1 := ⟨f - 1, by omega⟩
    rw [show assembleObjRest d2 (renderKVs dv []) ++ (nlind d3 ++ ('}' :: rest))
        = nlind d3 ++ ('}' :: rest) from rfl]
    rw [parseMembers_step, skipWs_nlind, skipWs_not_ws '}' _ (by decide)]
    dsimp only
    rw [if_pos rfl]
    rfl
  | cons m ms' ihms =>
    intro d2 d3 f rest hf hr
    obtain ⟨f', rfl⟩ : ∃ f', f = f' + 1 := ⟨f - 1, by omega⟩
    have hm2 := jsize_pos m.2
    have hkv : jsizeKV (m :: ms') = 1 + jsize m.2 + jsizeKV ms' := rfl
    rw [show assembleObjRest d2 (renderKVs dv (m :: ms')) ++ (nlind d3 ++ ('}' :: rest))
        = ',' :: (nlind (d2 + 1) ++ (renderMember (m.1, serVal dv m.2) ++
            (assembleObjRest d2 (renderKVs dv ms') ++ (nlind d3 ++ ('}' :: rest))))) from by
      simp [assembleObjRest, renderKVs, List.cons_append, List.append_assoc]]
    rw [parseMembers_step, skipWs_not_ws ',' _ (by decide)]
    dsimp only
    rw [if_neg (by decide : ¬((',' : Char) = '}')), if_pos rfl, skipWs_nlind,
      skipWs_renderMember]
    rw [parseMember_render m.1 m.2 dv
      (fun d f rest hfv hrv => IH m (List.mem_cons_self m ms') d f rest hfv hrv)
      f' _ (by omega) (restOk_objRest _ _ _ _)]
    dsimp only
    rw [ihms (fun p hp => IH p (List.mem_cons_of_mem m hp)) d2 d3 f' rest (by omega) hr]
    rfl

/-- Parsing the element loop over serialized remaining elements. -/
theorem parseElems_serList (xs : List JVal)
    (IH : ∀ x ∈ xs, ∀ d f rest, 3 * jsize x ≤ f → restOk rest →
      parseVal f (serVal d x ++ rest) = some (canon x, rest)) :
    ∀ d' d3 f rest, 3 * jsizeL xs + 1 ≤ f → restOk rest →
    parseElems f (serList d' xs ++ (nlind d3 ++ (']' :: rest))) = some (canonL xs, rest) := by
  induction xs with
  | nil =>
    intro d' d3 f rest hf hr
    obtain ⟨f', rfl⟩ : ∃ f', f = f' + 1 := ⟨f - 1, by omega⟩
    rw [show serList d' [] ++ (nlind d3 ++ (']' :: rest)) = nlind d3 ++ (']' :: rest) from rfl]
    rw [parseElems_step, skipWs_nlind, skipWs_not_ws ']' _ (by decide)]
    dsimp only
    rw [if_pos rfl]
    rfl
  | cons x xs' ihxs =>
    intro d' d3 f rest hf hr
    obtain ⟨f', rfl⟩ : ∃ f', f = f' + 1 := ⟨f - 1, by omega⟩
    have hx := jsize_pos x
    have hkv : jsizeL (x :: xs') = 1 + jsize x + jsizeL xs' := rfl
    rw [show serList d' (x :: xs') ++ (nlind d3 ++ (']' :: rest))
        = ',' :: (nlind d' ++ (serVal d' x ++
            (serList d' xs' ++ (nlind d3 ++ (']' :: rest))))) from by
      simp [serList, List.cons_append, List.append_assoc]]
    rw [parseElems_step, skipWs_not_ws ',' _ (by decide)]
    dsimp only
    rw [if_neg (by decide : ¬((',' : Char) = ']')), if_pos rfl, skipWs_nlind]
    obtain ⟨c0, t0, hser, hws, -, -⟩ := serVal_head d' x
    rw [hser, List.cons_append, skipWs_not_ws _ _ hws, ← List.cons_append, ← hser]
    rw [IH x (List.mem_cons_self x xs') d' f' _ (by omega) (restOk_serList _ _ _ _)]
    dsimp only
    rw [ihxs (fun y hy => IH y (List.mem_cons_of_mem x hy)) d' d3 f' rest (by omega) hr]
    rfl

/-- Parsing a serialized value yields its canonical form, leaving the
trailing context intact. -/
theorem parseVal_serVal (v : JVal) : ∀ d f rest, 3 * jsize v ≤ f → restOk rest →
    parseVal f (serVal d v ++ rest) = some (canon v, rest) := by
  induction v using JVal.my_ind with
  | h1 =>
    intro d f rest hf hr
    have hsz : jsize JVal.jnull = 1 := rfl
    obtain ⟨f', rfl⟩ : ∃ f', f = f' + 1 := ⟨f - 1, by omega⟩
    show parseVal (f' + 1) ('n' :: 'u' :: 'l' :: 'l' :: rest) = some (canon .jnull, rest)
    rw [parseVal_null_step]
    rfl
  | h2 b =>
    intro d f rest hf hr
    have hsz : jsize (JVal.jbool b) = 1 := rfl
    obtain ⟨f', rfl⟩ : ∃ f', f = f' + 1 := ⟨f - 1, by omega⟩
    cases b with
    | true =>
      show parseVal (f' + 1) ('t' :: 'r' :: 'u' :: 'e' :: rest) = some (canon (.jbool true), rest)
      rw [parseVal_true_step]
      rfl
    | false =>
      show parseVal (f' + 1) ('f' :: 'a' :: 'l' :: 's' :: 'e' :: rest)
        = some (canon (.jbool false), rest)
      rw [parseVal_false_step]
      rfl
  | h3 n =>
    intro d f rest hf hr
    have hsz : jsize (JVal.jnum n) = 1 := rfl
    obtain ⟨f', rfl⟩ : ∃ f', f = f' + 1 := ⟨f - 1, by omega⟩
    obtain ⟨c, t, heq, hrange, hnum⟩ := intRepr_head n
    show parseVal (f' + 1) (intRepr n ++ rest) = some (canon (.jnum n), rest)
    rw [heq, List.cons_append, parseVal_num_step f' c _ hrange hnum, ← List.cons_append,
      ← heq, parseNum_intRepr n rest hr]
    rfl
  | h4 s =>
    intro d f rest hf hr
    have hsz : jsize (JVal.jstr s) = 1 := rfl
    obtain ⟨f', rfl⟩ : ∃ f', f = f' + 1 := ⟨f - 1, by omega⟩
    show parseVal (f' + 1) (('"' :: (escapeStr s ++ ['"'])) ++ rest)
      = some (canon (.jstr s), rest)
    rw [show ('"' :: (escapeStr s ++ ['"'])) ++ rest
        = '"' :: (escapeStr s ++ ('"' :: rest)) from by simp]
    rw [parseVal_str_step, parseStr_escape]
    rfl
  | h5 xs IH =>
    intro d f rest hf hr
    have hsz0 : jsize (JVal.jarr xs) = 1 + jsizeL xs := rfl
    obtain ⟨f', rfl⟩ : ∃ f', f = f' + 1 := ⟨f - 1, by omega⟩
    cases xs with
    | nil =>
      obtain ⟨g, rfl⟩ : ∃ g, f' = g + 1 := ⟨f' - 1, by
        have : jsize (JVal.jarr []) = 1 := rfl
        omega⟩
      show parseVal (g + 1 + 1) ('[' :: (']' :: rest)) = some (canon (.jarr []), rest)
      rw [parseVal_arr_step, skipWs_not_ws ']' _ (by decide), parseArrBody_cons,
        if_pos rfl]
      rfl
    | cons x xs' =>
      have hsz : jsize (JVal.jarr (x :: xs')) = 2 + jsize x + jsizeL xs' := by
        show 1 + (1 + jsize x + jsizeL xs') = _
        omega
      obtain ⟨g, rfl⟩ : ∃ g, f' = g + 1 := ⟨f' - 1, by omega⟩
      show parseVal (g + 1 + 1)
        (('[' :: (nlind (d + 1) ++ serVal (d + 1) x ++ serList (d + 1) xs'
          ++ nlind d ++ [']'])) ++ rest) = some (canon (.jarr (x :: xs')), rest)
      rw [show ('[' :: (nlind (d + 1) ++ serVal (d + 1) x ++ serList (d + 1) xs'
            ++ nlind d ++ [']'])) ++ rest
          = '[' :: (nlind (d + 1) ++ (serVal (d + 1) x ++ (serList (d + 1) xs'
            ++ (nlind d ++ (']' :: rest))))) from by simp]
      rw [parseVal_arr_step, skipWs_nlind]
      obtain ⟨c0, t0, hser, hws, hnb, -⟩ := serVal_head (d + 1) x
      rw [hser, List.cons_append, skipWs_not_ws _ _ hws, parseArrBody_cons, if_neg hnb,
        ← List.cons_append, ← hser]
      rw [IH x (List.mem_cons_self x xs') (d + 1) g _ (by omega) (restOk_serList _ _ _ _)]
      dsimp only
      rw [parseElems_serList xs' (fun y hy => IH y (List.mem_cons_of_mem x hy))
        (d + 1) d g rest (by omega) hr]
      rfl
  | h6 kvs IH =>
    intro d f rest hf hr
    have hsz : jsize (JVal.jobj kvs) = 1 + jsizeKV kvs := rfl
    obtain ⟨f', rfl⟩ : ∃ f', f = f' + 1 := ⟨f - 1, by omega⟩
    rw [serVal_obj]
    cases hE : sortEntries kvs with
    | nil =>
      have hkvs : kvs = [] := ((hE ▸ sortEntries_perm kvs).symm).eq_nil
      subst hkvs
      obtain ⟨g, rfl⟩ : ∃ g, f' = g + 1 := ⟨f' - 1, by
        have : jsize (JVal.jobj []) = 1 := rfl
        omega⟩
      show parseVal (g + 1 + 1) (assembleObj d (renderKVs (d + 1) []) ++ rest)
        = some (canon (.jobj []), rest)
      rw [show assembleObj d (renderKVs (d + 1) []) ++ rest = '{' :: ('}' :: rest) from rfl]
      rw [parseVal_obj_step, skipWs_not_ws '}' _ (by decide), parseObjBody_cons,
        if_pos rfl]
      rfl
    | cons m ms =>
      have hperm := jsizeKV_perm (sortEntries_perm kvs)
      rw [hE] at hperm
      have hkv : jsizeKV (m :: ms) = 1 + jsize m.2 + jsizeKV ms := rfl
      have hm2 := jsize_pos m.2
      obtain ⟨g, rfl⟩ : ∃ g, f' = g + 1 := ⟨f' - 1, by omega⟩
      rw [show renderKVs (d + 1) (m :: ms)
          = (m.1, serVal (d + 1) m.2) :: renderKVs (d + 1) ms from rfl]
      rw [show assembleObj d ((m.1, serVal (d + 1) m.2) :: renderKVs (d + 1) ms) ++ rest
          = '{' :: (nlind (d + 1) ++ (renderMember (m.1, serVal (d + 1) m.2) ++
              (assembleObjRest d (renderKVs (d + 1) ms) ++ (nlind d ++ ('}' :: rest)))))
          from by simp [assembleObj, List.cons_append, List.append_assoc]]
      rw [parseVal_obj_step, skipWs_nlind, skipWs_renderMember]
      rw [renderMember_append, parseObjBody_cons, if_neg (by decide : ¬(('"' : Char) = '}')),
        ← renderMember_append]
      have hmm : m ∈ kvs := mem_sortEntries (hE ▸ List.mem_cons_self m ms)
      rw [parseMember_render m.1 m.2 (d + 1)
        (fun dv fv restv hfv hrv => IH m hmm dv fv restv hfv hrv)
        g _ (by omega) (restOk_objRest _ _ _ _)]
      dsimp only
      rw [parseMembers_objRest (d + 1) ms
        (fun p hp => IH p (mem_sortEntries (hE ▸ List.mem_cons_of_mem m hp)))
        d d g rest (by omega) hr]
      show some (.jobj ((m.1, canon m.2) :: canonKV ms), rest)
        = some (canon (.jobj kvs), rest)
      rw [show canon (.jobj kvs) = .jobj (sortEntries (canonKV kvs)) from rfl,
        sortEntries_canonKV, hE]
      rfl

/-! Serialized output is at least as long as the value's size, so the
parsing fuel `3 * (length + 1)` used by `loads` covers `3 * jsize`. -/

theorem nlind_length (d : Nat) : (nlind d).length = 2 * d + 1 := by
  simp [nlind]

theorem renderMember_length (m : List Char × List Char) :
    (renderMember m).length = (escapeStr m.1).length + m.2.length + 3 := by
  simp [renderMember]
  omega

theorem objRest_len (d : Nat) (ms : List (List Char × List Char)) :
    (ms.map (fun m => 1 + m.2.length)).sum ≤ (assembleObjRest d ms).length := by
  induction ms with
  | nil => simp [assembleObjRest]
  | cons m ms ih =>
    have hr := renderMember_length m
    have hn := nlind_length (d + 1)
    simp only [List.map_cons, List.sum_cons, assembleObjRest, List.length_cons,
      List.length_append]
    omega

theorem assembleObj_len (d : Nat) (ms : List (List Char × List Char)) :
    (ms.map (fun m => 1 + m.2.length)).sum + 1 ≤ (assembleObj d ms).length := by
  cases ms with
  | nil => simp [assembleObj]
  | cons m ms =>
    have hr := renderMember_length m
    have hn1 := nlind_length (d + 1)
    have hn2 := nlind_length d
    have ho := objRest_len d ms
    simp only [List.map_cons, List.sum_cons, assembleObj, List.length_cons,
      List.length_append, List.length_nil]
    omega

theorem jsizeL_le_serList (xs : List JVal)
    (IH : ∀ x ∈ xs, ∀ d, jsize x ≤ (serVal d x).length) :
    ∀ d, jsizeL xs ≤ (serList d xs).length := by
  induction xs with
  | nil => intro d; simp [jsizeL, serList]
  | cons x xs ih =>
    intro d
    have h1 := IH x (List.mem_cons_self x xs) d
    have h2 := ih (fun y hy => IH y (List.mem_cons_of_mem x hy)) d
    have hn := nlind_length d
    have hL : jsizeL (x :: xs) = 1 + jsize x + jsizeL xs := rfl
    simp only [serList, List.length_cons, List.length_append]
    omega

theorem jsizeKV_le_renderKVs (dv : Nat) (l : List (List Char × JVal))
    (IH : ∀ p ∈ l, jsize p.2 ≤ (serVal dv p.2).length) :
    jsizeKV l ≤ ((renderKVs dv l).map (fun m => 1 + m.2.length)).sum := by
  induction l with
  | nil => simp [jsizeKV, renderKVs]
  | cons p ps ih =>
    have h1 := IH p (List.mem_cons_self p ps)
    have h2 := ih (fun q hq => IH q (List.mem_cons_of_mem p hq))
    have hKV : jsizeKV (p :: ps) = 1 + jsize p.2 + jsizeKV ps := rfl
    simp only [renderKVs, List.map_cons, List.sum_cons]
    omega

/-- The value's structural size never exceeds its serialized length. -/
theorem jsize_le_serVal_len (v : JVal) : ∀ d, jsize v ≤ (serVal d v).length := by
  induction v using JVal.my_ind with
  | h1 =>
    intro d
    show (1 : Nat) ≤ 4
    decide
  | h2 b =>
    intro d
    cases b with
    | true =>
      show (1 : Nat) ≤ 4
      decide
    | false =>
      show (1 : Nat) ≤ 5
      decide
  | h3 n =>
    intro d
    obtain ⟨c, t, heq, -, -⟩ := intRepr_head n
    show 1 ≤ (intRepr n).length
    rw [heq]
    simp
  | h4 s =>
    intro d
    show 1 ≤ ('"' :: (escapeStr s ++ ['"'])).length
    simp
  | h5 xs IH =>
    intro d
    cases xs with
    | nil =>
      show (1 : Nat) ≤ 2
      decide
    | cons x xs' =>
      have h1 := IH x (List.mem_cons_self x xs') (d + 1)
      have h2 := jsizeL_le_serList xs' (fun y hy => IH y (List.mem_cons_of_mem x hy)) (d + 1)
      have hn1 := nlind_length (d + 1)
      have hn2 := nlind_length d
      have hsz : jsize (JVal.jarr (x :: xs')) = 2 + jsize x + jsizeL xs' := by
        show 1 + (1 + jsize x + jsizeL xs') = _
        omega
      rw [show serVal d (.jarr (x :: xs')) = '[' :: (nlind (d + 1) ++ serVal (d + 1) x
          ++ serList (d + 1) xs' ++ nlind d ++ [']']) from rfl]
      simp only [List.length_cons, List.length_append, List.length_nil]
      omega
  | h6 kvs IH =>
    intro d
    have ha := assembleObj_len d (List.insertionSort renderedLe (renderKVs (d + 1) kvs))
    have hperm : ((List.insertionSort renderedLe (renderKVs (d + 1) kvs)).map
          (fun m => 1 + m.2.length)).sum
        = ((renderKVs (d + 1) kvs).map (fun m => 1 + m.2.length)).sum :=
      ((List.perm_insertionSort renderedLe _).map _).sum_eq
    have hkv := jsizeKV_le_renderKVs (d + 1) kvs (fun p hp => IH p hp (d + 1))
    have hsz : jsize (JVal.jobj kvs) = 1 + jsizeKV kvs := rfl
    rw [show serVal d (.jobj kvs)
        = assembleObj d (List.insertionSort renderedLe (renderKVs (d + 1) kvs)) from rfl]
    omega

/-! Canonicalization interacts with serialization: re-serializing the
canonical form gives the same bytes, and `canon` is idempotent. -/

theorem sortEntries_idem (l : List (List Char × JVal)) :
    sortEntries (sortEntries l) = sortEntries l := by
  unfold sortEntries
  exact List.Sorted.insertionSort_eq (List.sorted_insertionSort entryLe l)

theorem serList_canonL (xs : List JVal)
    (IH : ∀ x ∈ xs, ∀ d, serVal d (canon x) = serVal d x) :
    ∀ d, serList d (canonL xs) = serList d xs := by
  induction xs with
  | nil => intro d; rfl
  | cons x xs ih =>
    intro d
    show ',' :: (nlind d ++ serVal d (canon x) ++ serList d (canonL xs)) = _
    rw [IH x (List.mem_cons_self x xs) d,
      ih (fun y hy => IH y (List.mem_cons_of_mem x hy)) d]
    rfl

theorem renderKVs_canonKV (dv : Nat) (l : List (List Char × JVal))
    (IH : ∀ p ∈ l, serVal dv (canon p.2) = serVal dv p.2) :
    renderKVs dv (canonKV l) = renderKVs dv l := by
  induction l with
  | nil => rfl
  | cons p ps ih =>
    show (p.1, serVal dv (canon p.2)) :: renderKVs dv (canonKV ps)
      = (p.1, serVal dv p.2) :: renderKVs dv ps
    rw [IH p (List.mem_cons_self p ps),
      ih (fun q hq => IH q (List.mem_cons_of_mem p hq))]

/-- Serializing the canonical form of a value gives the same bytes as
serializing the value itself. -/
theorem serVal_canon (v : JVal) : ∀ d, serVal d (canon v) = serVal d v := by
  induction v using JVal.my_ind with
  | h1 => intro d; rfl
  | h2 b => intro d; rfl
  | h3 n => intro d; rfl
  | h4 s => intro d; rfl
  | h5 xs IH =>
    intro d
    cases xs with
    | nil => rfl
    | cons x xs' =>
      show '[' :: (nlind (d + 1) ++ serVal (d + 1) (canon x)
          ++ serList (d + 1) (canonL xs') ++ nlind d ++ [']'])
        = '[' :: (nlind (d + 1) ++ serVal (d + 1) x
          ++ serList (d + 1) xs' ++ nlind d ++ [']'])
      rw [IH x (List.mem_cons_self x xs') (d + 1),
        serList_canonL xs' (fun y hy => IH y (List.mem_cons_of_mem x hy)) (d + 1)]
  | h6 kvs IH =>
    intro d
    show assembleObj d (List.insertionSort renderedLe
        (renderKVs (d + 1) (sortEntries (canonKV kvs))))
      = assembleObj d (List.insertionSort renderedLe (renderKVs (d + 1) kvs))
    rw [insertionSort_renderKVs, sortEntries_idem, ← insertionSort_renderKVs,
      renderKVs_canonKV (d + 1) kvs (fun p hp => IH p hp (d + 1)),
      insertionSort_renderKVs]

theorem canonL_canonL (xs : List JVal) (IH : ∀ x ∈ xs, canon (canon x) = canon x) :
    canonL (canonL xs) = canonL xs := by
  induction xs with
  | nil => rfl
  | cons x xs ih =>
    show canon (canon x) :: canonL (canonL xs) = canon x :: canonL xs
    rw [IH x (List.mem_cons_self x xs), ih (fun y hy => IH y (List.mem_cons_of_mem x hy))]

theorem canonKV_canonKV (l : List (List Char × JVal))
    (IH : ∀ p ∈ l, canon (canon p.2) = canon p.2) :
    canonKV (canonKV l) = canonKV l := by
  induction l with
  | nil => rfl
  | cons p ps ih =>
    show (p.1, canon (canon p.2)) :: canonKV (canonKV ps) = (p.1, canon p.2) :: canonKV ps
    rw [IH p (List.mem_cons_self p ps), ih (fun q hq => IH q (List.mem_cons_of_mem p hq))]

/-- Canonicalization is idempotent, so `pyEq (canon v) v`. -/
theorem canon_idem (v : JVal) : canon (canon v) = canon v := by
  induction v using JVal.my_ind with
  | h1 => rfl
  | h2 b => rfl
  | h3 n => rfl
  | h4 s => rfl
  | h5 xs IH =>
    show JVal.jarr (canonL (canonL xs)) = JVal.jarr (canonL xs)
    rw [canonL_canonL xs IH]
  | h6 kvs IH =>
    show JVal.jobj (sortEntries (canonKV (sortEntries (canonKV kvs))))
      = JVal.jobj (sortEntries (canonKV kvs))
    rw [← sortEntries_canonKV, canonKV_canonKV kvs IH, sortEntries_idem]

/-- `json.loads (json.dumps v)` succeeds and returns the canonical
(key-sorted) form of `v`, which Python's `==` does not distinguish
from `v`. -/
theorem loads_dumps (v : JVal) : loads (dumps v) = some (canon v) := by
  have hsz := jsize_le_serVal_len v 0
  have hp : parseVal (3 * ((serVal 0 v).length + 1)) (serVal 0 v ++ []) = some (canon v, []) :=
    parseVal_serVal v 0 _ [] (by omega) restOk_nil
  rw [List.append_nil] at hp
  obtain ⟨c0, t0, hser, hws, -, -⟩ := serVal_head 0 v
  have hsk : skipWs (serVal 0 v) = serVal 0 v := by
    rw [hser]
    exact skipWs_not_ws _ _ hws
  unfold loads dumps
  rw [hsk, hp]
  dsimp only
  rw [if_pos (show skipWs ([] : List Char) = [] from rfl)]

/-- C4: for every Cluster Info value built from the supported shapes
(strings, numbers, booleans, null, nested objects and arrays), writing it
with `write_json` and reading the resulting file back with `load_json`
succeeds and yields a value equal (in Python's `==` sense, which ignores
dict insertion order) to the input: the write/read round-trip is
lossless. -/
theorem write_read_roundtrip (w : World) (fs : Fs) (path : String) (v : JVal) :
    load_json w (write_json fs path v) path = .ok (canon v) ∧ pyEq (canon v) v := by
  constructor
  · unfold load_json write_json
    rw [if_pos rfl]
    dsimp only
    rw [loads_dumps]
  · show canon (canon v) = canon v
    exact canon_idem v

/-- C5: serialization is deterministic and canonical — any two in-memory
representations of the same logical value (`pyEq`, in particular objects
with the same entries inserted in different orders) produce byte-identical
`dumps` output, and `write_json` leaves identical filesystems. -/
theorem write_json_canonical_deterministic (fs : Fs) (path : String) (v u : JVal)
    (h : pyEq v u) :
    dumps v = dumps u ∧ write_json fs path v = write_json fs path u := by
  have hd : dumps v = dumps u := by
    show serVal 0 v = serVal 0 u
    rw [← serVal_canon v 0, ← serVal_canon u 0, show canon v = canon u from h]
  refine ⟨hd, ?_⟩
  unfold write_json
  funext p
  rw [hd]

/-- Witness: two objects with the same entries in different insertion
orders are `pyEq`, and `dumps` produces identical bytes for them. -/
theorem write_json_canonical_deterministic_witness :
    pyEq (.jobj [(['b'], .jnum 1), (['a'], .jnum 2)])
        (.jobj [(['a'], .jnum 2), (['b'], .jnum 1)]) ∧
    dumps (.jobj [(['b'], .jnum 1), (['a'], .jnum 2)])
      = dumps (.jobj [(['a'], .jnum 2), (['b'], .jnum 1)]) :=
  ⟨rfl, (write_json_canonical_deterministic (fun _ => none) "cluster_info.json"
    (.jobj [(['b'], .jnum 1), (['a'], .jnum 2)])
    (.jobj [(['a'], .jnum 2), (['b'], .jnum 1)]) rfl).1⟩

end DcosCli
